import Mathlib

/-!
Verification of the zed-chat-export incremental synchronization engine.

This file shallowly embeds the core of the repository:
  * the legacy tool-result union decoder and image parser (src/importer.rs),
  * the two-generation record decoding fallback (src/main.rs, src/parallel.rs),
  * the filename/identity allocator over a prefix registry (src/main.rs) and
    its filesystem-probing variant (src/parallel.rs),
  * the per-record sync planner and the sequential export loop (src/main.rs),
  * the ownership lookup of existing output files (src/parallel.rs).

Modelling conventions:
  * timestamps are integers (RFC3339 parsing/printing is elided; the code only
    ever compares parsed timestamps),
  * byte strings that must be valid JSON are represented by a JSON value plus
    an explicit "malformed" marker; zstd decompression is represented by the
    pair (tag, intact flag) since the code only observes success or failure,
  * the filesystem is an association list from file stem to file content; file
    content is a parsed-frontmatter option (mirroring what
    parse_existing_frontmatter / read_file_updated_at can recover) plus an
    opaque body string,
  * rendering (exporter.rs / the absent renderer module) is modelled as a
    deterministic function producing the frontmatter fields the code reads
    back, plus a deterministic body.
-/

set_option autoImplicit false

namespace ZedExport

/-! ### Association lists (model of HashMap and of a directory listing) -/

def alFind {α : Type} (l : List (String × α)) (k : String) : Option α :=
  (l.find? (fun kv => kv.1 == k)).map (·.2)

def alInsert {α : Type} : List (String × α) → String → α → List (String × α)
  | [], k, v => [(k, v)]
  | kv :: rest, k, v => if kv.1 = k then (k, v) :: rest else kv :: alInsert rest k v

def alErase {α : Type} (l : List (String × α)) (k : String) : List (String × α) :=
  l.filter (fun kv => kv.1 != k)

/-! ### Character-level string helpers.

Identifiers in the store are ASCII (UUIDs), so the byte slicing "id[..len]"
performed by the source is modelled as character-level take. -/

def strTake (s : String) (n : Nat) : String :=
  String.mk (s.toList.take n)

/-- The portion of a filename stem before the first underscore
(stem.split('_').next() in build_file_index / process_thread). -/
def prefixOf (s : String) : String :=
  String.mk (s.toList.takeWhile (fun c => c != '_'))

def noUnderscore (s : String) : Prop := '_' ∉ s.toList

instance (s : String) : Decidable (noUnderscore s) := by
  unfold noUnderscore; infer_instance

def strIsPref (a b : String) : Prop := a.toList <+: b.toList

instance (a b : String) : Decidable (strIsPref a b) := by
  unfold strIsPref; infer_instance

/-! ### Slug derivation (model of slug::slugify plus the 60-char truncation in
allocate_filename).

The slug crate lowercases ASCII alphanumerics and collapses every other run of
characters into single '-' separators with no leading or trailing separator
(non-ASCII transliteration is elided: such characters are treated as
separators).  allocate_filename then truncates to 60 bytes (the slug is ASCII,
so bytes = chars) and trims trailing '-'. -/

def isAlnumAscii (c : Char) : Bool := c.isAlpha || c.isDigit

def slugAux : List Char → Bool → List Char
  | [], _ => []
  | c :: cs, pending =>
    if isAlnumAscii c then
      (if pending then ['-'] else []) ++ c.toLower :: slugAux cs false
    else
      slugAux cs true

def slugify (t : String) : String :=
  String.mk (slugAux t.toList false)

def dropTrailingDash (l : List Char) : List Char :=
  (l.reverse.dropWhile (fun c => c == '-')).reverse

def slugOf (title : String) : String :=
  String.mk (dropTrailingDash ((slugify title).toList.take 60))

/-- Stem assembly: candidate prefix plus "_slug" when the slug is non-empty. -/
def mkStem (pfx slug : String) : String :=
  if slug = "" then pfx else pfx ++ "_" ++ slug

/-! ### JSON model -/

inductive Json where
  | null
  | bool (b : Bool)
  | num (n : Int)
  | str (s : String)
  | arr (elems : List Json)
  | obj (fields : List (String × Json))

def Json.asStr? : Json → Option String
  | .str s => some s
  | _ => none

def Json.asInt? : Json → Option Int
  | .num n => some n
  | _ => none

def Json.asObj? : Json → Option (List (String × Json))
  | .obj o => some o
  | _ => none

mutual
def renderJson : Json → String
  | .null => "null"
  | .bool b => cond b "true" "false"
  | .num n => toString n
  | .str s => "\"" ++ s ++ "\""
  | .arr xs => "[" ++ renderJsonList xs ++ "]"
  | .obj kvs => "\x7b" ++ renderJsonFields kvs ++ "\x7d"

def renderJsonList : List Json → String
  | [] => ""
  | [x] => renderJson x
  | x :: y :: xs => renderJson x ++ "," ++ renderJsonList (y :: xs)

def renderJsonFields : List (String × Json) → String
  | [] => ""
  | [kv] => "\"" ++ kv.1 ++ "\":" ++ renderJson kv.2
  | kv :: kv' :: kvs => "\"" ++ kv.1 ++ "\":" ++ renderJson kv.2 ++ "," ++ renderJsonFields (kv' :: kvs)
end

/-! ### Tool-result content decoding (importer.rs,
LanguageModelToolResultContent::deserialize and parse_lm_image).

serde_json maps iterate in key order; the model takes the field list as given,
which agrees with the source on all single-key and distinct-key objects. -/

structure ImageSize where
  width : Int
  height : Int
deriving DecidableEq

/-- Mirror of LanguageModelImage: the size field is declared optional. -/
structure LanguageModelImage where
  source : String
  size : Option ImageSize
deriving DecidableEq

inductive LanguageModelToolResultContent where
  | text (s : String)
  | image (img : LanguageModelImage)
deriving DecidableEq

/-- Wrapping i64 → i32 cast ("as i32" in parse_lm_image). -/
def asI32 (n : Int) : Int := (n + 2 ^ 31) % 2 ^ 32 - 2 ^ 31

/-- Model of str::to_lowercase (ASCII: the field names compared by the code
are ASCII). -/
def lowerStr (s : String) : String := String.mk (s.toList.map Char.toLower)

/-- The "source" accumulator of parse_lm_image's key loop: the last
case-insensitive "source" key wins and its value is taken via as_str(). -/
def srcAcc (o : List (String × Json)) : Option String :=
  o.foldl (fun acc kv => if lowerStr kv.1 = "source" then kv.2.asStr? else acc) none

/-- The "size" accumulator of parse_lm_image's key loop. -/
def sizeAcc (o : List (String × Json)) : Option (List (String × Json)) :=
  o.foldl (fun acc kv => if lowerStr kv.1 = "size" then kv.2.asObj? else acc) none

/-- The "width" accumulator of parse_lm_image's size loop. -/
def widthAcc (so : List (String × Json)) : Option Int :=
  so.foldl (fun acc kv => if lowerStr kv.1 = "width" then kv.2.asInt?.map asI32 else acc) none

/-- The "height" accumulator of parse_lm_image's size loop. -/
def heightAcc (so : List (String × Json)) : Option Int :=
  so.foldl (fun acc kv => if lowerStr kv.1 = "height" then kv.2.asInt?.map asI32 else acc) none

/-- parse_lm_image: needs a source string and a size object holding both width
and height; the produced image always carries "some" size. -/
def parseLmImage (o : List (String × Json)) : Option LanguageModelImage :=
  match srcAcc o, sizeAcc o with
  | some src, some so =>
    match widthAcc so, heightAcc so with
    | some w, some h => some ⟨src, some ⟨w, h⟩⟩
    | _, _ => none
  | _, _ => none

/-- get_ci: first field whose name matches case-insensitively. -/
def getCi (o : List (String × Json)) (field : String) : Option Json :=
  (o.find? (fun kv => lowerStr kv.1 == lowerStr field)).map (·.2)

/-- Branch: an object with case-insensitive "type" equal (case-insensitively)
to "text" and a string "text" field. -/
def tryTypedText (o : List (String × Json)) : Option LanguageModelToolResultContent :=
  match getCi o "type", getCi o "text" with
  | some t, some txt =>
    match t.asStr? with
    | some ts =>
      if lowerStr ts = "text" then
        match txt.asStr? with
        | some s => some (.text s)
        | none => none
      else none
    | none => none
  | _, _ => none

/-- Branch: a single-field object whose key is case-insensitively "text". -/
def trySingleText (o : List (String × Json)) : Option LanguageModelToolResultContent :=
  match o.find? (fun kv => lowerStr kv.1 == "text") with
  | some kv =>
    if o.length = 1 then
      match kv.2.asStr? with
      | some s => some (.text s)
      | none => none
    else none
  | none => none

/-- Branch: a single-field object whose key is case-insensitively "image",
wrapping an image object. -/
def tryWrappedImage (o : List (String × Json)) : Option LanguageModelToolResultContent :=
  match o.find? (fun kv => lowerStr kv.1 == "image") with
  | some kv =>
    if o.length = 1 then
      match kv.2.asObj? with
      | some io => (parseLmImage io).map .image
      | none => none
    else none
  | none => none

def trcErrPrefix : String :=
  "data did not match any variant of LanguageModelToolResultContent. Got: "

/-- The custom Deserialize impl for LanguageModelToolResultContent: a bare
JSON string, then the four object shapes in source order, else a diagnostic
error embedding the rendered payload. -/
def decodeToolResultContent (v : Json) : Except String LanguageModelToolResultContent :=
  match v with
  | .str s => .ok (.text s)
  | .obj o =>
    match tryTypedText o <|> trySingleText o <|> tryWrappedImage o <|> (parseLmImage o).map .image with
    | some c => .ok c
    | none => .error (trcErrPrefix ++ renderJson v)
  | _ => .error (trcErrPrefix ++ renderJson v)

/-- The disjunction of the shapes accepted by decodeToolResultContent. -/
def trcShapeMatch (v : Json) : Prop :=
  (∃ s, v = .str s) ∨
    (∃ o, v = .obj o ∧
      ((tryTypedText o).isSome ∨ (trySingleText o).isSome ∨
        (tryWrappedImage o).isSome ∨ (parseLmImage o).isSome))

/-! ### Record decoding: current (DbThread) then legacy (SerializedThread)
generation (importer.rs structs; fallback order from process_thread in main.rs
and export_thread in parallel.rs).

Field requirements follow serde: DbThread requires title, messages and
updated_at; SerializedThread requires version, summary, updated_at and
messages; remaining fields are defaulted.  Validation of the message lists'
elements is elided (messages are kept as raw JSON). -/

def jField (o : List (String × Json)) (k : String) : Option Json :=
  (o.find? (fun kv => kv.1 == k)).map (·.2)

structure DbThreadM where
  title : String
  updatedAt : Int
  messages : List Json

structure SerializedThreadM where
  version : String
  summary : String
  updatedAt : Int
  messages : List Json

def deserializeDbThread (j : Json) : Option DbThreadM :=
  match j with
  | .obj o =>
    match jField o "title", jField o "updated_at", jField o "messages" with
    | some (.str t), some (.num ts), some (.arr ms) => some ⟨t, ts, ms⟩
    | _, _, _ => none
  | _ => none

def deserializeSerializedThread (j : Json) : Option SerializedThreadM :=
  match j with
  | .obj o =>
    match jField o "version", jField o "summary", jField o "updated_at", jField o "messages" with
    | some (.str v), some (.str s), some (.num ts), some (.arr ms) => some ⟨v, s, ts, ms⟩
    | _, _, _, _ => none
  | _ => none

/-- Cheap updated_at probe (get_updated_at / extract_json_timestamp): serde of
a Minimal struct holding only updated_at. -/
def extractJsonTimestamp (j : Json) : Option Int :=
  match j with
  | .obj o =>
    match jField o "updated_at" with
    | some (.num ts) => some ts
    | _ => none
  | _ => none

inductive RecordDecode where
  | current (t : DbThreadM)
  | legacy (t : SerializedThreadM)

/-- Two-generation fallback as in main.rs process_thread lines 381-399: the
error carries the serde failure message, with no version-string extraction. -/
def decodeRecordJson (j : Json) : Except String RecordDecode :=
  match deserializeDbThread j with
  | some t => .ok (.current t)
  | none =>
    match deserializeSerializedThread j with
    | some t => .ok (.legacy t)
    | none => .error "Could not deserialize as DbThread or SerializedThread"

/-! ### Stored records and decompression (the data_type dispatch in
process_thread / utils::decompress) -/

inductive JsonBytes where
  | wellFormed (j : Json)
  | malformed

inductive StoredData where
  | json (b : JsonBytes)
  | zstd (intact : Bool) (b : JsonBytes)
  | other (tag : String)

inductive ExpErr where
  | zstdFailed
  | unknownDataType (tag : String)
  | decodeFailed
deriving DecidableEq

/-- data_type dispatch: "zstd" decompresses (failing on corrupt payloads),
"json" passes the bytes through, anything else is an error. -/
def decompressData : StoredData → Except ExpErr JsonBytes
  | .json b => .ok b
  | .zstd true b => .ok b
  | .zstd false _ => .error .zstdFailed
  | .other t => .error (.unknownDataType t)

structure RecordM where
  id : String
  title : String
  data : StoredData

def jbDeserializeDb : JsonBytes → Option DbThreadM
  | .wellFormed j => deserializeDbThread j
  | .malformed => none

def jbDeserializeSer : JsonBytes → Option SerializedThreadM
  | .wellFormed j => deserializeSerializedThread j
  | .malformed => none

def jbExtractTs : JsonBytes → Option Int
  | .wellFormed j => extractJsonTimestamp j
  | .malformed => none

/-! ### Output files -/

/-- The fields parse_existing_frontmatter can recover from a written file
(utils.rs FileFrontmatter); updated_at is mandatory for the parse to succeed,
id defaults to none and include_context to false. -/
structure FileFrontmatter where
  id : Option String
  updatedAt : Int
  includeContext : Bool
deriving DecidableEq

structure FileContent where
  frontmatter : Option FileFrontmatter
  /-- The frontmatter text written before the updated_at line (exporter.rs
  serializes the title field first), kept because read_file_updated_at's
  byte budget decides on it. -/
  fmPre : String
  body : String
deriving DecidableEq

/-- The output directory: stem → file content. -/
abbrev Fs := List (String × FileContent)

/-- build_file_index's result: filename prefix → stem. -/
abbrev FileIndex := List (String × String)

abbrev Registry := List (String × String)

def parseExistingFrontmatter (fs : Fs) (path : String) : Option FileFrontmatter :=
  (alFind fs path).bind (·.frontmatter)

/-- Byte accounting of the frontmatter probes: each line contributes
line.len() + 1 (the newline). -/
def lineBytes (s : String) : Nat := s.toList.length + 1

/-- The updated_at line as the probe sees it; the RFC3339 timestamp text is
abstracted to the decimal rendering of the modelled integer timestamp (both
are a constant few tens of bytes). -/
def uaLine (ts : Int) : String := "updated_at: " ++ toString ts

/-- main.rs read_file_updated_at: scans the frontmatter lines for updated_at
under a 2048-byte budget (bytes_read += line.len() + 1 per line, breaking
once past the budget before examining the overflowing line).  The writer
emits the title line before updated_at, so the probe succeeds iff the
frontmatter parses and the preceding header text plus the updated_at line
fit the budget together. -/
def readFileUpdatedAt (fs : Fs) (path : String) : Option Int :=
  match alFind fs path with
  | some c =>
    match c.frontmatter with
    | some fm =>
      if lineBytes c.fmPre + lineBytes (uaLine fm.updatedAt) ≤ 2048 then some fm.updatedAt
      else none
    | none => none
  | none => none

/-- fs::rename, with rename failure on a missing source degraded to a warning
(the code only logs it). -/
def fsRename (fs : Fs) (src dst : String) : Fs :=
  match alFind fs src with
  | none => fs
  | some c => alInsert (alErase fs src) dst c

/-- build_file_index: prefix of each .md filename (before the first '_') → its
path, later directory entries overwriting earlier ones. -/
def buildFileIndex (fs : Fs) : FileIndex :=
  fs.foldl (fun m e => let pfx := prefixOf e.1; if pfx = "" then m else alInsert m pfx e.1) []

/-- The per-entry step of build_file_index, named for the fold lemmas. -/
def bfiStep (m : FileIndex) (e : String × FileContent) : FileIndex :=
  if prefixOf e.1 = "" then m else alInsert m (prefixOf e.1) e.1

/-! ### Rendering.

exporter.rs writes frontmatter with title, updated_at, optional model and git
metadata; it has no id and no include_context entry, so a later
parse_existing_frontmatter recovers id = none and include_context = false.
The markdown body (message sections, mention fences, image assets) is
irrelevant to every claim and is abstracted to a deterministic encoding of the
rendered inputs. -/

def renderTags : Option (List String) → String
  | some ts => String.intercalate "," ts
  | none => ""

def renderBodyDb (id stem : String) (t : DbThreadM) (tags : Option (List String)) : String :=
  id ++ "|" ++ stem ++ "|" ++ t.title ++ "|" ++ toString t.updatedAt ++ "|"
    ++ renderJsonList t.messages ++ "|" ++ renderTags tags

def renderBodySer (id : String) (t : SerializedThreadM) (tags : Option (List String)) : String :=
  id ++ "|" ++ t.summary ++ "|" ++ toString t.updatedAt ++ "|"
    ++ renderJsonList t.messages ++ "|" ++ renderTags tags

/-- File written by exporter.rs write_db_thread_markdown: the YAML header
serializes the payload title before updated_at, so the header text preceding
the updated_at line is the title line. -/
def renderDbFileMain (id stem : String) (t : DbThreadM) (tags : Option (List String)) : FileContent :=
  ⟨some ⟨none, t.updatedAt, false⟩, "title: " ++ t.title, renderBodyDb id stem t tags⟩

/-- File written by exporter.rs write_serialized_thread_markdown (the legacy
title is the summary field, again serialized before updated_at). -/
def renderSerFileMain (id : String) (t : SerializedThreadM) (tags : Option (List String)) : FileContent :=
  ⟨some ⟨none, t.updatedAt, false⟩, "title: " ++ t.summary, renderBodySer id t tags⟩

/-! ### Identity allocation over the in-memory registry
(allocate_filename in main.rs) -/

/-- The three candidate prefix lengths: id[..8], id[..12], the full id
(each clamped to the id's length). -/
def candidates (id : String) : List String :=
  [strTake id 8, strTake id 12, strTake id id.toList.length]

def allocGo (id slug : String) : List String → Registry → Option (String × Registry)
  | [], _ => none
  | c :: rest, reg =>
    match alFind reg c with
    | none => some (mkStem c slug, alInsert reg c id)
    | some v => if v = id then some (mkStem c slug, reg) else allocGo id slug rest reg

/-- allocate_filename: first candidate prefix that is unclaimed (claiming it)
or already claimed by this id; the after-loop fallback returns the full id
without claiming. -/
def allocateFilename (id title : String) (reg : Registry) : String × Registry :=
  match allocGo id (slugOf title) (candidates id) reg with
  | some r => r
  | none => (mkStem id (slugOf title), reg)

/-! ### The per-record sync step (process_thread in main.rs) -/

inductive ProcessResult where
  | created
  | updated
  | skipped
deriving DecidableEq

/-- The tail of process_thread after the idempotency check: compute the result
variant, rename a differently-named existing file, refresh the index, create
the output file, decode (current then legacy) and render, deleting the created
file when both decode attempts fail. -/
def processWrite (r : RecordM) (tags : Option (List String)) (reg : Registry)
    (idx : FileIndex) (fs : Fs) (stem pfx : String) (existing : Option String)
    (jb : JsonBytes) :
    Except ExpErr ProcessResult × Registry × FileIndex × Fs :=
  let variant := match existing with
    | none => ProcessResult.created
    | some _ => ProcessResult.updated
  let fs1 := match existing with
    | some ex => if ex ≠ stem then fsRename fs ex stem else fs
    | none => fs
  let idx1 := alInsert idx pfx stem
  match jbDeserializeDb jb with
  | some t => (.ok variant, reg, idx1, alInsert fs1 stem (renderDbFileMain r.id stem t tags))
  | none =>
    match jbDeserializeSer jb with
    | some t => (.ok variant, reg, idx1, alInsert fs1 stem (renderSerFileMain r.id t tags))
    | none => (.error .decodeFailed, reg, idx1, alErase fs1 stem)

/-- process_thread when the idempotency check produced no cached bytes:
decompress (propagating failure before any filesystem mutation), then write. -/
def processRest (r : RecordM) (tags : Option (List String)) (reg : Registry)
    (idx : FileIndex) (fs : Fs) (stem pfx : String) (existing : Option String) :
    Except ExpErr ProcessResult × Registry × FileIndex × Fs :=
  match decompressData r.data with
  | .error e => (.error e, reg, idx, fs)
  | .ok jb => processWrite r tags reg idx fs stem pfx existing jb

/-- process_thread: allocate a stem (the registry mutation persists even on a
later error), look the filename prefix up in the index, run the idempotency
check (skip when the stored timestamp is at least the payload's), then write. -/
def processThread (r : RecordM) (force : Bool) (tags : Option (List String))
    (reg0 : Registry) (idx : FileIndex) (fs : Fs) :
    Except ExpErr ProcessResult × Registry × FileIndex × Fs :=
  let a := allocateFilename r.id r.title reg0
  let stem := a.1
  let reg := a.2
  let pfx := prefixOf stem
  let existing := alFind idx pfx
  match force, existing with
  | false, some ex =>
    match readFileUpdatedAt fs ex with
    | some fileTs =>
      match decompressData r.data with
      | .error e => (.error e, reg, idx, fs)
      | .ok jb =>
        match jbExtractTs jb with
        | some dbTs =>
          if dbTs ≤ fileTs then (.ok .skipped, reg, idx, fs)
          else processWrite r tags reg idx fs stem pfx existing jb
        | none => processWrite r tags reg idx fs stem pfx existing jb
    | none => processRest r tags reg idx fs stem pfx existing
  | _, _ => processRest r tags reg idx fs stem pfx existing

/-! ### The sequential export loop (run_export in main.rs) -/

structure Counts where
  created : Nat
  updated : Nat
  skipped : Nat
  errors : Nat
deriving DecidableEq

/-- The row loop: on the first Skip, count the remaining rows as skipped
(total saturating-minus processed) and break; on an error, count it and
continue with the next row. -/
def runLoop (force : Bool) (tags : Option (List String)) :
    List RecordM → Nat → Counts → Registry → FileIndex → Fs → Counts × Fs
  | [], _, cnt, _, _, fs => (cnt, fs)
  | r :: rest, total, cnt, reg, idx, fs =>
    match processThread r force tags reg idx fs with
    | (.ok .created, reg', idx', fs') =>
      runLoop force tags rest total ⟨cnt.created + 1, cnt.updated, cnt.skipped, cnt.errors⟩ reg' idx' fs'
    | (.ok .updated, reg', idx', fs') =>
      runLoop force tags rest total ⟨cnt.created, cnt.updated + 1, cnt.skipped, cnt.errors⟩ reg' idx' fs'
    | (.ok .skipped, _, _, fs') =>
      let s1 := cnt.skipped + 1
      let remaining := total - (cnt.created + cnt.updated + s1 + cnt.errors)
      (⟨cnt.created, cnt.updated, s1 + remaining, cnt.errors⟩, fs')
    | (.error _, reg', idx', fs') =>
      runLoop force tags rest total ⟨cnt.created, cnt.updated, cnt.skipped, cnt.errors + 1⟩ reg' idx' fs'

/-- run_export: build the file index from the target directory, then drive the
rows (already ordered newest-first by the SQL query) through process_thread. -/
def runExport (records : List RecordM) (force : Bool) (tags : Option (List String))
    (fs : Fs) : Counts × Fs :=
  runLoop force tags records records.length ⟨0, 0, 0, 0⟩ [] (buildFileIndex fs) fs

/-! ### The parallel incremental engine (parallel.rs) -/

/-- Modelled from the spec: the renderer module (crate::renderer, called by
parallel.rs and sequential.rs) is absent from src/.  Per the specification the
document header carries the OutputFrontmatter state read back on later runs
(id, updatedAt and the includeContext flag used for this render); the body is
the formatted markdown, abstracted to a deterministic encoding. -/
def renderDbFileSpec (id stem : String) (t : DbThreadM) (tags : Option (List String))
    (includeContext : Bool) : FileContent :=
  ⟨some ⟨some id, t.updatedAt, includeContext⟩, "title: " ++ t.title,
    "ctx:" ++ cond includeContext "1" "0" ++ "|" ++ renderBodyDb id stem t tags⟩

/-- Modelled from the spec: renderer output for the legacy thread shape
(render_serialized_thread takes no include_context argument, so none is
recorded and a later parse recovers false). -/
def renderSerFileSpec (id : String) (t : SerializedThreadM) (tags : Option (List String)) : FileContent :=
  ⟨some ⟨some id, t.updatedAt, false⟩, "title: " ++ t.summary, renderBodySer id t tags⟩

/-- find_existing_file: among .md entries whose name starts with the first 8
characters of the id, the first whose frontmatter id equals the record id. -/
def findExistingFile (fs : Fs) (id : String) : Option String :=
  (fs.filter (fun e => e.1.startsWith (strTake id 8))).findSome? (fun e =>
    match e.2.frontmatter with
    | some fm => if fm.id = some id then some e.1 else none
    | none => none)

def allocParGo (id slug : String) (fs : Fs) : List String → Option String
  | [] => none
  | c :: rest =>
    let stem := mkStem c slug
    match alFind fs stem with
    | none => some stem
    | some content =>
      match content.frontmatter with
      | some fm => if fm.id = some id then some stem else allocParGo id slug fs rest
      | none => allocParGo id slug fs rest

/-- allocate_filename in parallel.rs: probe the filesystem per candidate
prefix; an absent file claims the stem, a present file is reused only when its
frontmatter id matches, otherwise try the next longer prefix; fall back to the
full id. -/
def allocateFilenamePar (id title : String) (fs : Fs) : String :=
  match allocParGo id (slugOf title) fs (candidates id) with
  | some stem => stem
  | none => mkStem id (slugOf title)

/-- The tail of export_thread after both parse attempts succeeded: allocate,
rename a differently-named existing file, write the render. -/
def exportFinish (r : RecordM) (existingPath : Option String) (includeContext : Bool)
    (tags : Option (List String)) (fs : Fs) (src : DbThreadM ⊕ SerializedThreadM) :
    Except ExpErr ProcessResult × Fs :=
  let stem := allocateFilenamePar r.id r.title fs
  let variant := match existingPath with
    | none => ProcessResult.created
    | some _ => ProcessResult.updated
  let fs1 := match existingPath with
    | some old => if old ≠ stem then fsRename fs old stem else fs
    | none => fs
  let content := match src with
    | .inl t => renderDbFileSpec r.id stem t tags includeContext
    | .inr t => renderSerFileSpec r.id t tags
  (.ok variant, alInsert fs1 stem content)

/-- export_thread decode stage: current then legacy generation; both failing
is a per-record error raised before any file is created. -/
def exportDecode (r : RecordM) (existingPath : Option String) (includeContext : Bool)
    (tags : Option (List String)) (fs : Fs) (jb : JsonBytes) :
    Except ExpErr ProcessResult × Fs :=
  match jbDeserializeDb jb with
  | some t => exportFinish r existingPath includeContext tags fs (.inl t)
  | none =>
    match jbDeserializeSer jb with
    | some t => exportFinish r existingPath includeContext tags fs (.inr t)
    | none => (.error .decodeFailed, fs)

def exportRest (r : RecordM) (existingPath : Option String) (includeContext : Bool)
    (tags : Option (List String)) (fs : Fs) :
    Except ExpErr ProcessResult × Fs :=
  match decompressData r.data with
  | .error e => (.error e, fs)
  | .ok jb => exportDecode r existingPath includeContext tags fs jb

/-- export_thread (parallel.rs): skip when force is off, an owned existing
file parses, and its stored updated_at is at least the payload's while its
stored include_context equals the run's setting; otherwise decode and write. -/
def exportThread (r : RecordM) (existingPath : Option String) (force includeContext : Bool)
    (tags : Option (List String)) (fs : Fs) :
    Except ExpErr ProcessResult × Fs :=
  match force, existingPath with
  | false, some ex =>
    match parseExistingFrontmatter fs ex with
    | some fm =>
      match decompressData r.data with
      | .error e => (.error e, fs)
      | .ok jb =>
        match jbExtractTs jb with
        | some dbTs =>
          if dbTs ≤ fm.updatedAt ∧ fm.includeContext = includeContext then
            (.ok .skipped, fs)
          else exportDecode r existingPath includeContext tags fs jb
        | none => exportDecode r existingPath includeContext tags fs jb
    | none => exportRest r existingPath includeContext tags fs
  | _, _ => exportRest r existingPath includeContext tags fs

/-! ### Derived views of a record used to state the run-level claims -/

/-- The decode outcome intrinsic to a record: decompression followed by the
current-then-legacy parse fallback. -/
def recParse (r : RecordM) : Option (DbThreadM ⊕ SerializedThreadM) :=
  match decompressData r.data with
  | .error _ => none
  | .ok jb =>
    match jbDeserializeDb jb with
    | some t => some (.inl t)
    | none => (jbDeserializeSer jb).map .inr

def tsOfSrc : DbThreadM ⊕ SerializedThreadM → Int
  | .inl t => t.updatedAt
  | .inr t => t.updatedAt

/-- The title text the exporter writes into the header (the payload title for
the current generation, the summary for the legacy one). -/
def srcTitle : DbThreadM ⊕ SerializedThreadM → String
  | .inl t => t.title
  | .inr t => t.summary

/-- The written header keeps updated_at inside read_file_updated_at's
2048-byte budget: the title line and the updated_at line fit together. -/
def fmProbeOk (src : DbThreadM ⊕ SerializedThreadM) : Bool :=
  decide (lineBytes ("title: " ++ srcTitle src) + lineBytes (uaLine (tsOfSrc src)) ≤ 2048)

def renderOfMain (r : RecordM) (stem : String) (tags : Option (List String)) :
    DbThreadM ⊕ SerializedThreadM → FileContent
  | .inl t => renderDbFileMain r.id stem t tags
  | .inr t => renderSerFileMain r.id t tags

/-- The payload timestamp the idempotency check compares against
(decompression followed by the cheap updated_at probe). -/
def recSrcTs (r : RecordM) : Option Int :=
  match decompressData r.data with
  | .ok jb => jbExtractTs jb
  | .error _ => none

/-- A record is up to date with respect to a stored-timestamp assignment F
when its payload timestamp is at most the stored one (the Skip test of
process_thread). -/
def upToDateF (F : String → Option Int) (r : RecordM) : Prop :=
  ∃ ts fts, recSrcTs r = some ts ∧ F r.id = some fts ∧ ts ≤ fts

/-- The (record, stem) pairs of the records that decode successfully, with
stems computed along the registry trace of the run. -/
def goodStems : List RecordM → Registry → List (RecordM × String)
  | [], _ => []
  | r :: rest, reg =>
    let a := allocateFilename r.id r.title reg
    (if (recParse r).isSome then [(r, a.1)] else []) ++ goodStems rest a.2

def renderOfGood (tags : Option (List String)) (rs : RecordM × String) : FileContent :=
  match recParse rs.1 with
  | some src => renderOfMain rs.1 rs.2 tags src
  | none => ⟨none, "", ""⟩

def fsOfGoods (tags : Option (List String)) (l : List (RecordM × String)) : Fs :=
  l.map (fun rs => (rs.2, renderOfGood tags rs))

/-- The prefixes claimed along the registry trace of a run. -/
def claimsList : List RecordM → Registry → List String
  | [], _ => []
  | r :: rest, reg =>
    let a := allocateFilename r.id r.title reg
    prefixOf a.1 :: claimsList rest a.2

/-- Positional readiness of a second run against the first run's output fs1:
each record that decodes finds its own up-to-date file through the rebuilt
index, and each record that fails to decode finds nothing at its prefix. -/
def RunReady (fs1 : Fs) (tags : Option (List String)) : List RecordM → Registry → Prop
  | [], _ => True
  | r :: rest, reg =>
    (match recParse r with
      | none =>
        alFind (buildFileIndex fs1) (prefixOf (allocateFilename r.id r.title reg).1) = none ∧
          alFind fs1 (allocateFilename r.id r.title reg).1 = none
      | some src =>
        alFind (buildFileIndex fs1) (prefixOf (allocateFilename r.id r.title reg).1) =
            some (allocateFilename r.id r.title reg).1 ∧
          alFind fs1 (allocateFilename r.id r.title reg).1 =
            some (renderOfMain r (allocateFilename r.id r.title reg).1 tags src)) ∧
      RunReady fs1 tags rest (allocateFilename r.id r.title reg).2

/-- No claimed prefix is prefix-related to the id (the freshness a record has
before its own allocation in a run whose ids are pairwise prefix-free). -/
def freshFor (reg : Registry) (i : String) : Prop :=
  ∀ p v, alFind reg p = some v → ¬ strIsPref i v ∧ ¬ strIsPref v i

/-- Pairwise independence of record ids: neither is a prefix of the other
(distinct fixed-length UUIDs satisfy this). -/
def idsIndep (a b : RecordM) : Prop :=
  ¬ strIsPref a.id b.id ∧ ¬ strIsPref b.id a.id

instance (a b : RecordM) : Decidable (idsIndep a b) := by
  unfold idsIndep
  infer_instance

/-- Well-formed id: non-empty and without underscores (UUIDs are such). -/
def wfId (s : String) : Prop := s ≠ "" ∧ noUnderscore s

/-- Eligibility of a candidate prefix in allocate_filename: unclaimed, or
claimed by this very id. -/
def eligB (reg : Registry) (id c : String) : Bool :=
  match alFind reg c with
  | none => true
  | some v => v = id

/-! ### Invariants of the sequential run used by the idempotence proof -/

/-- Every registry claim is a non-empty underscore-free prefix of its id. -/
def RegPfxInv (reg : Registry) : Prop :=
  ∀ p v, alFind reg p = some v → p ≠ "" ∧ noUnderscore p ∧ strIsPref p v

/-- The file index only holds claimed prefixes. -/
def IdxRegInv (reg : Registry) (idx : FileIndex) : Prop :=
  ∀ p, (alFind idx p).isSome → (alFind reg p).isSome

/-- Every file stem's prefix is claimed. -/
def FsRegInv (reg : Registry) (fs : Fs) : Prop :=
  ∀ s, (alFind fs s).isSome → (alFind reg (prefixOf s)).isSome

/-- The records still to process have well-formed ids that are prefix-isolated
from every claim and from each other. -/
def FreshIds (reg : Registry) (todo : List RecordM) : Prop :=
  (∀ r ∈ todo, freshFor reg r.id ∧ r.id ≠ "" ∧ noUnderscore r.id) ∧
    todo.Pairwise idsIndep

/-- A payload title long enough to push the written updated_at line past
read_file_updated_at's 2048-byte frontmatter budget. -/
def c2LongTitle : String := String.mk (List.replicate 2048 'a')

/-- A single well-formed, decodable record carrying the over-budget title:
its own second-run probe fails, so the skip check is bypassed. -/
def c2LongRecord : RecordM :=
  ⟨"aaaa0001-1111", "", .json (.wellFormed (.obj
      [("title", Json.str c2LongTitle), ("updated_at", Json.num 5),
        ("messages", Json.arr [])]))⟩

/-- A concrete three-record store (a current-generation thread, a malformed
payload and a legacy-generation thread) with pairwise prefix-free ids. -/
def c2Records : List RecordM :=
  [⟨"aaaa0001-1111", "Alpha", .json (.wellFormed (.obj
      [("title", Json.str "Alpha"), ("updated_at", Json.num 5), ("messages", Json.arr [])]))⟩,
   ⟨"bbbb0002-2222", "", .json .malformed⟩,
   ⟨"cccc0003-3333", "Sum", .json (.wellFormed (.obj
      [("version", Json.str "1"), ("summary", Json.str "Sum"), ("updated_at", Json.num 7),
        ("messages", Json.arr [])]))⟩]

/-! ## Lemmas: association lists -/

theorem alFind_cons {α : Type} (p : String × α) (l : List (String × α)) (k : String) :
    alFind (p :: l) k = if p.1 = k then some p.2 else alFind l k := by
  by_cases h : p.1 = k <;> simp [alFind, List.find?_cons, h]

theorem alFind_insert_self {α : Type} (l : List (String × α)) (k : String) (v : α) :
    alFind (alInsert l k v) k = some v := by
  induction l with
  | nil => simp [alInsert, alFind_cons]
  | cons p rest ih =>
    by_cases h : p.1 = k
    · simp [alInsert, h, alFind_cons]
    · simp [alInsert, h, alFind_cons, ih]

theorem alFind_insert_ne {α : Type} (l : List (String × α)) (k k' : String) (v : α)
    (h : k' ≠ k) : alFind (alInsert l k v) k' = alFind l k' := by
  induction l with
  | nil => simp [alInsert, alFind_cons, alFind, (Ne.symm h)]
  | cons p rest ih =>
    by_cases hp : p.1 = k
    · subst hp
      simp [alInsert, alFind_cons, Ne.symm h]
    · simp only [alInsert, if_neg hp, alFind_cons, ih]

theorem alInsert_of_find_none {α : Type} (l : List (String × α)) (k : String) (v : α)
    (h : alFind l k = none) : alInsert l k v = l ++ [(k, v)] := by
  induction l with
  | nil => simp [alInsert]
  | cons p rest ih =>
    rw [alFind_cons] at h
    by_cases hp : p.1 = k
    · simp [hp] at h
    · simp only [if_neg hp] at h
      simp [alInsert, hp, ih h]

theorem alFind_append {α : Type} (l1 l2 : List (String × α)) (k : String) :
    alFind (l1 ++ l2) k = match alFind l1 k with
      | some v => some v
      | none => alFind l2 k := by
  induction l1 with
  | nil => simp [alFind]
  | cons p rest ih =>
    by_cases hp : p.1 = k
    · simp [alFind_cons, hp]
    · simpa [alFind_cons, hp] using ih

theorem alFind_erase_self {α : Type} (l : List (String × α)) (k : String) :
    alFind (alErase l k) k = none := by
  induction l with
  | nil => rfl
  | cons p rest ih =>
    rw [alErase, List.filter_cons]
    by_cases hp : p.1 = k
    · rw [if_neg (by simp [hp])]
      simpa [alErase] using ih
    · rw [if_pos (by simpa using hp), alFind_cons, if_neg hp]
      simpa [alErase] using ih

theorem alErase_of_find_none {α : Type} (l : List (String × α)) (k : String)
    (h : alFind l k = none) : alErase l k = l := by
  induction l with
  | nil => rfl
  | cons p rest ih =>
    rw [alFind_cons] at h
    by_cases hp : p.1 = k
    · simp [hp] at h
    · simp only [if_neg hp] at h
      rw [alErase, List.filter_cons, if_pos (by simpa using hp)]
      have h2 : alErase rest k = rest := ih h
      rw [alErase] at h2
      rw [h2]

theorem alFind_eq_none_iff {α : Type} (l : List (String × α)) (k : String) :
    alFind l k = none ↔ ∀ p ∈ l, p.1 ≠ k := by
  induction l with
  | nil => simp [alFind]
  | cons p rest ih =>
    by_cases hp : p.1 = k <;> simp [alFind_cons, hp, ih]

theorem alFind_isSome_of_mem {α : Type} {l : List (String × α)} {p : String × α}
    (h : p ∈ l) : (alFind l p.1).isSome := by
  cases hf : alFind l p.1 with
  | none => exact absurd rfl ((alFind_eq_none_iff l p.1).mp hf p h)
  | some v => rfl

theorem alFind_mem {α : Type} {l : List (String × α)} {k : String} {v : α}
    (h : alFind l k = some v) : (k, v) ∈ l := by
  induction l with
  | nil => simp [alFind] at h
  | cons p rest ih =>
    rw [alFind_cons] at h
    by_cases hp : p.1 = k
    · rw [if_pos hp] at h
      have hv := Option.some.inj h
      have hpk : p = (k, v) := by
        obtain ⟨a, b⟩ := p
        simp only at hp hv
        simp [hp, hv]
      rw [hpk]
      exact .head _
    · rw [if_neg hp] at h
      exact .tail _ (ih h)

/-! ## Lemmas: literal lowercase computations -/

theorem lowerStr_type : lowerStr "type" = "type" := by decide

theorem lowerStr_text : lowerStr "text" = "text" := by decide

theorem lowerStr_image : lowerStr "image" = "image" := by decide

/-! ## Claim C7: tool-result union decoding -/

/-- C7: decoding a tool-result content value yields the canonical Text variant
for a bare JSON string, for an object with case-insensitive fields type="text"
and text, and for a single-field object with a case-insensitive text field; it
yields the canonical Image variant for a single-field case-insensitive image
wrapper and for a bare object carrying source and size; every value matching
none of the accepted shapes fails with an error embedding the rendered
payload, never a silent default. -/
theorem toolResult_union_decoding_c7 :
    (∀ s, decodeToolResultContent (.str s) = .ok (.text s)) ∧
    (∀ kt kx tv s, lowerStr kt = "type" → lowerStr kx = "text" → lowerStr tv = "text" →
      decodeToolResultContent (.obj [(kt, .str tv), (kx, .str s)]) = .ok (.text s)) ∧
    (∀ k s, lowerStr k = "text" →
      decodeToolResultContent (.obj [(k, .str s)]) = .ok (.text s)) ∧
    (∀ k io img, lowerStr k = "image" → parseLmImage io = some img →
      decodeToolResultContent (.obj [(k, .obj io)]) = .ok (.image img)) ∧
    (∀ o img,
      (∀ kv ∈ o, lowerStr kv.1 ≠ "text" ∧ lowerStr kv.1 ≠ "type" ∧ lowerStr kv.1 ≠ "image") →
      parseLmImage o = some img →
      decodeToolResultContent (.obj o) = .ok (.image img)) ∧
    (∀ v, ¬ trcShapeMatch v → decodeToolResultContent v = .error (trcErrPrefix ++ renderJson v)) := by
  refine ⟨fun s => rfl, ?_, ?_, ?_, ?_, ?_⟩
  · intro kt kx tv s h1 h2 h3
    have e1 : ("text" == "type") = false := by decide
    simp [decodeToolResultContent, tryTypedText, getCi, List.find?_cons, h1, h2, h3,
      lowerStr_type, lowerStr_text, e1, Json.asStr?]
  · intro k s h
    have e1 : ("text" == "type") = false := by decide
    simp [decodeToolResultContent, tryTypedText, trySingleText, getCi, List.find?_cons, h,
      lowerStr_type, lowerStr_text, e1, Json.asStr?]
  · intro k io img h hp
    have e1 : ("image" == "type") = false := by decide
    have e2 : ("image" == "text") = false := by decide
    simp [decodeToolResultContent, tryTypedText, trySingleText, tryWrappedImage, getCi,
      List.find?_cons, h, lowerStr_type, lowerStr_text, lowerStr_image, e1, e2, Json.asObj?, hp]
  · intro o img hk hp
    have h1 : tryTypedText o = none := by
      unfold tryTypedText getCi
      have hfind : o.find? (fun kv => lowerStr kv.1 == lowerStr "type") = none := by
        rw [List.find?_eq_none]
        intro kv hkv
        simp [lowerStr_type, (hk kv hkv).2.1]
      simp [hfind]
    have h2 : trySingleText o = none := by
      unfold trySingleText
      have hfind : o.find? (fun kv => lowerStr kv.1 == "text") = none := by
        rw [List.find?_eq_none]
        intro kv hkv
        simp [(hk kv hkv).1]
      simp [hfind]
    have h3 : tryWrappedImage o = none := by
      unfold tryWrappedImage
      have hfind : o.find? (fun kv => lowerStr kv.1 == "image") = none := by
        rw [List.find?_eq_none]
        intro kv hkv
        simp [(hk kv hkv).2.2]
      simp [hfind]
    simp [decodeToolResultContent, h1, h2, h3, hp]
  · intro v hv
    match v with
    | .str s => exact absurd (Or.inl ⟨s, rfl⟩) hv
    | .null => rfl
    | .bool b => rfl
    | .num n => rfl
    | .arr xs => rfl
    | .obj o =>
      cases h1 : tryTypedText o with
      | some c => exact absurd (Or.inr ⟨o, rfl, Or.inl (by simp [h1])⟩) hv
      | none =>
      cases h2 : trySingleText o with
      | some c => exact absurd (Or.inr ⟨o, rfl, Or.inr (Or.inl (by simp [h2]))⟩) hv
      | none =>
      cases h3 : tryWrappedImage o with
      | some c => exact absurd (Or.inr ⟨o, rfl, Or.inr (Or.inr (Or.inl (by simp [h3])))⟩) hv
      | none =>
      cases h4 : parseLmImage o with
      | some img => exact absurd (Or.inr ⟨o, rfl, Or.inr (Or.inr (Or.inr (by simp [h4])))⟩) hv
      | none => simp [decodeToolResultContent, h1, h2, h3, h4]

/-- Witness for C7: the six shapes at concrete inputs, including
case-insensitive field names, and a non-matching payload failing with the
diagnostic error. -/
theorem toolResult_union_decoding_c7_witness :
    decodeToolResultContent (.str "plain") = .ok (.text "plain") ∧
    decodeToolResultContent (.obj [("TYPE", .str "Text"), ("tExt", .str "hello")]) =
      .ok (.text "hello") ∧
    decodeToolResultContent (.obj [("Text", .str "solo")]) = .ok (.text "solo") ∧
    decodeToolResultContent
        (.obj [("Image", .obj [("SOURCE", .str "b64"), ("size",
          .obj [("Width", .num 3), ("Height", .num 4)])])]) =
      .ok (.image ⟨"b64", some ⟨3, 4⟩⟩) ∧
    decodeToolResultContent
        (.obj [("source", .str "b64"), ("SIZE", .obj [("width", .num 3), ("height", .num 4)])]) =
      .ok (.image ⟨"b64", some ⟨3, 4⟩⟩) ∧
    decodeToolResultContent (.num 5) = .error (trcErrPrefix ++ renderJson (.num 5)) := by
  refine ⟨toolResult_union_decoding_c7.1 "plain",
    toolResult_union_decoding_c7.2.1 "TYPE" "tExt" "Text" "hello"
      (by decide) (by decide) (by decide),
    toolResult_union_decoding_c7.2.2.1 "Text" "solo" (by decide),
    toolResult_union_decoding_c7.2.2.2.1 "Image" _ _ (by decide) (by decide),
    toolResult_union_decoding_c7.2.2.2.2.1 _ _ (by decide) (by decide),
    toolResult_union_decoding_c7.2.2.2.2.2 (.num 5) ?_⟩
  rintro (⟨s, h⟩ | ⟨o, h, _⟩) <;> cases h

/-! ## Claim C10: image decoding requires source, size, width and height -/

/-- C10: an object decodes to an Image only when it carries a source string
and a size object holding both width and height; absence of any of them
rejects the object (falling through to the diagnostic decode error), and every
produced image carries a present size even though the canonical image type
declares the field optional. -/
theorem image_size_required_c10 :
    (∀ o img, parseLmImage o = some img → img.size.isSome) ∧
    (∀ o, srcAcc o = none → parseLmImage o = none) ∧
    (∀ o, sizeAcc o = none → parseLmImage o = none) ∧
    (∀ o so, sizeAcc o = some so → widthAcc so = none → parseLmImage o = none) ∧
    (∀ o so, sizeAcc o = some so → heightAcc so = none → parseLmImage o = none) ∧
    (∀ o,
      (∀ kv ∈ o, lowerStr kv.1 ≠ "text" ∧ lowerStr kv.1 ≠ "type" ∧ lowerStr kv.1 ≠ "image") →
      parseLmImage o = none →
      decodeToolResultContent (.obj o) = .error (trcErrPrefix ++ renderJson (.obj o))) := by
  refine ⟨?_, ?_, ?_, ?_, ?_, ?_⟩
  · intro o img h
    simp only [parseLmImage] at h
    split at h
    · split at h
      · cases h; rfl
      · cases h
    · cases h
  · intro o h
    simp [parseLmImage, h]
  · intro o h
    cases hsrc : srcAcc o <;> simp [parseLmImage, hsrc, h]
  · intro o so hso hw
    cases hsrc : srcAcc o <;> simp [parseLmImage, hsrc, hso, hw]
  · intro o so hso hh
    cases hsrc : srcAcc o <;> cases hw : widthAcc so <;>
      simp [parseLmImage, hsrc, hso, hw, hh]
  · intro o hk hp
    have h1 : tryTypedText o = none := by
      unfold tryTypedText getCi
      have hfind : o.find? (fun kv => lowerStr kv.1 == lowerStr "type") = none := by
        rw [List.find?_eq_none]
        intro kv hkv
        simp [lowerStr_type, (hk kv hkv).2.1]
      simp [hfind]
    have h2 : trySingleText o = none := by
      unfold trySingleText
      have hfind : o.find? (fun kv => lowerStr kv.1 == "text") = none := by
        rw [List.find?_eq_none]
        intro kv hkv
        simp [(hk kv hkv).1]
      simp [hfind]
    have h3 : tryWrappedImage o = none := by
      unfold tryWrappedImage
      have hfind : o.find? (fun kv => lowerStr kv.1 == "image") = none := by
        rw [List.find?_eq_none]
        intro kv hkv
        simp [(hk kv hkv).2.2]
      simp [hfind]
    simp [decodeToolResultContent, h1, h2, h3, hp]

/-- Witness for C10: an image object with no size is rejected and the decode
errors; a complete image object yields a present size. -/
theorem image_size_required_c10_witness :
    parseLmImage [("source", Json.str "x")] = none ∧
    decodeToolResultContent (.obj [("source", Json.str "x")]) =
      .error (trcErrPrefix ++ renderJson (.obj [("source", Json.str "x")])) ∧
    parseLmImage [("source", Json.str "x"), ("size", .obj [("height", .num 8)])] = none ∧
    (LanguageModelImage.mk "x" (some ⟨7, 8⟩)).size.isSome := by
  refine ⟨image_size_required_c10.2.2.1 _ rfl, ?_, ?_, ?_⟩
  · exact image_size_required_c10.2.2.2.2.2 _ (by decide)
      (image_size_required_c10.2.2.1 _ rfl)
  · exact image_size_required_c10.2.2.2.1
      [("source", Json.str "x"), ("size", Json.obj [("height", Json.num 8)])]
      [("height", Json.num 8)] rfl (by decide)
  · exact image_size_required_c10.1
      [("source", Json.str "x"), ("size", Json.obj [("width", .num 7), ("height", .num 8)])]
      _ (by decide)

/-! ## Lemmas: strings, prefixes and stems -/

theorem mk_toList (s : String) : String.mk s.toList = s := by cases s; rfl

theorem toList_mk (l : List Char) : (String.mk l).toList = l := rfl

theorem toList_append (s t : String) : (s ++ t).toList = s.toList ++ t.toList :=
  String.data_append s t

theorem toList_eq_nil_iff (s : String) : s.toList = [] ↔ s = "" := by
  constructor
  · intro h
    have := congrArg String.mk h
    rwa [mk_toList] at this
  · intro h
    rw [h]
    rfl

theorem strTake_toList (s : String) (n : Nat) : (strTake s n).toList = s.toList.take n := rfl

theorem strTake_length (s : String) (n : Nat) :
    (strTake s n).toList.length = min n s.toList.length := by
  rw [strTake_toList, List.length_take]

theorem strTake_full (s : String) : strTake s s.toList.length = s := by
  rw [strTake, List.take_length, mk_toList]

theorem strTake_isPref (s : String) (n : Nat) : strIsPref (strTake s n) s := by
  rw [strIsPref, strTake_toList]
  exact List.take_prefix n s.toList

theorem noUnderscore_strTake {s : String} (h : noUnderscore s) (n : Nat) :
    noUnderscore (strTake s n) := by
  rw [noUnderscore, strTake_toList]
  intro hmem
  exact h (List.take_subset n s.toList hmem)

theorem strTake_ne_empty {s : String} (h : s ≠ "") {n : Nat} (hn : 0 < n) :
    strTake s n ≠ "" := by
  intro hc
  have h0 : (strTake s n).toList = [] := by rw [hc]; rfl
  rw [strTake_toList, List.take_eq_nil_iff] at h0
  rcases h0 with h0 | h0
  · omega
  · exact h ((toList_eq_nil_iff s).mp h0)

theorem takeWhile_of_all {p : Char → Bool} (l : List Char) (h : ∀ c ∈ l, p c = true) :
    l.takeWhile p = l := by
  induction l with
  | nil => rfl
  | cons c cs ih =>
    rw [List.takeWhile_cons, h c (.head _)]
    simp [ih (fun x hx => h x (.tail _ hx))]

theorem takeWhile_append_stop {p : Char → Bool} (l1 l2 : List Char) (c0 : Char)
    (h : ∀ c ∈ l1, p c = true) (h0 : p c0 = false) :
    (l1 ++ c0 :: l2).takeWhile p = l1 := by
  induction l1 with
  | nil => simp [List.takeWhile_cons, h0]
  | cons c cs ih =>
    rw [List.cons_append, List.takeWhile_cons, h c (.head _)]
    simp [ih (fun x hx => h x (.tail _ hx))]

theorem prefixOf_of_noUnderscore {s : String} (h : noUnderscore s) : prefixOf s = s := by
  rw [prefixOf, takeWhile_of_all, mk_toList]
  intro c hc
  have : c ≠ '_' := fun hcq => h (hcq ▸ hc)
  simpa using this

theorem prefixOf_mkStem {pfx : String} (slug : String) (h : noUnderscore pfx) :
    prefixOf (mkStem pfx slug) = pfx := by
  rw [mkStem]
  by_cases hs : slug = ""
  · rw [if_pos hs, prefixOf_of_noUnderscore h]
  · rw [if_neg hs, prefixOf]
    have hl : (pfx ++ "_" ++ slug).toList = pfx.toList ++ '_' :: slug.toList := by
      rw [toList_append, toList_append]
      have h1 : "_".toList = ['_'] := by decide
      rw [h1, List.append_assoc]
      rfl
    rw [hl, takeWhile_append_stop, mk_toList]
    · intro c hc
      have : c ≠ '_' := fun hcq => h (hcq ▸ hc)
      simpa using this
    · simp

theorem mkStem_toList_length (pfx slug : String) :
    (mkStem pfx slug).toList.length ≤ pfx.toList.length + 1 + slug.toList.length := by
  rw [mkStem]
  by_cases hs : slug = ""
  · rw [if_pos hs]
    omega
  · rw [if_neg hs, toList_append, toList_append]
    simp
    omega

theorem head?_dropWhile (p : Char → Bool) (l : List Char) {a : Char}
    (h : (l.dropWhile p).head? = some a) : p a = false := by
  induction l with
  | nil => simp at h
  | cons c cs ih =>
    rw [List.dropWhile_cons] at h
    by_cases hc : p c = true
    · rw [if_pos hc] at h
      exact ih h
    · rw [if_neg hc] at h
      simp at h
      rw [← h]
      simpa using hc

theorem dropTrailingDash_getLast? (l : List Char) {a : Char}
    (h : (dropTrailingDash l).getLast? = some a) : (a == '-') = false := by
  rw [dropTrailingDash, ← List.head?_reverse, List.reverse_reverse] at h
  exact head?_dropWhile (fun c => c == '-') l.reverse h

theorem dropTrailingDash_length (l : List Char) :
    (dropTrailingDash l).length ≤ l.length := by
  rw [dropTrailingDash]
  calc (l.reverse.dropWhile (fun c => c == '-')).reverse.length
      = (l.reverse.dropWhile (fun c => c == '-')).length := List.length_reverse _
    _ ≤ l.reverse.length := (List.dropWhile_sublist _).length_le
    _ = l.length := List.length_reverse _

theorem slugOf_length (title : String) : (slugOf title).toList.length ≤ 60 := by
  rw [slugOf, toList_mk]
  calc (dropTrailingDash ((slugify title).toList.take 60)).length
      ≤ ((slugify title).toList.take 60).length := dropTrailingDash_length _
    _ ≤ 60 := by rw [List.length_take]; omega

theorem slugOf_no_trailing_dash (title : String) {a : Char}
    (h : (slugOf title).toList.getLast? = some a) : (a == '-') = false := by
  rw [slugOf, toList_mk] at h
  exact dropTrailingDash_getLast? _ h

/-! ## Claim C8: version fallback -/

/-- C8 counterexample: a legacy-shaped payload (summary, updated_at, messages)
that carries no version field fails the legacy parse — SerializedThread
requires an explicit version field — so it fails record decoding entirely
instead of decoding via the legacy path; the resulting error is the serde
failure message, with no extracted version string. -/
theorem version_fallback_c8_counterexample :
    jField [("summary", Json.str "s"), ("updated_at", Json.num 5),
        ("messages", Json.arr [])] "version" = none ∧
    deserializeSerializedThread (.obj [("summary", Json.str "s"), ("updated_at", Json.num 5),
        ("messages", Json.arr [])]) = none ∧
    deserializeDbThread (.obj [("summary", Json.str "s"), ("updated_at", Json.num 5),
        ("messages", Json.arr [])]) = none ∧
    decodeRecordJson (.obj [("summary", Json.str "s"), ("updated_at", Json.num 5),
        ("messages", Json.arr [])]) =
      .error "Could not deserialize as DbThread or SerializedThread" :=
  ⟨rfl, rfl, rfl, rfl⟩

/-- C8 amended: record decoding attempts the current generation first and the
legacy generation only on failure; the legacy schema requires an explicit
version field, so a version-less payload cannot decode via the legacy path;
when both attempts fail the error is the fixed serde diagnostic (the
version-string extraction exists only in a historical draft binary). -/
theorem version_fallback_c8 :
    (∀ j t, deserializeDbThread j = some t → decodeRecordJson j = .ok (.current t)) ∧
    (∀ j t, deserializeDbThread j = none → deserializeSerializedThread j = some t →
      decodeRecordJson j = .ok (.legacy t)) ∧
    (∀ j, deserializeDbThread j = none → deserializeSerializedThread j = none →
      decodeRecordJson j = .error "Could not deserialize as DbThread or SerializedThread") ∧
    (∀ o t, deserializeSerializedThread (.obj o) = some t →
      ∃ v, jField o "version" = some (.str v) ∧ t.version = v) := by
  refine ⟨?_, ?_, ?_, ?_⟩
  · intro j t h
    simp [decodeRecordJson, h]
  · intro j t hdb h
    simp [decodeRecordJson, hdb, h]
  · intro j hdb hser
    simp [decodeRecordJson, hdb, hser]
  · intro o t h
    simp only [deserializeSerializedThread] at h
    split at h
    · rename_i v s ts ms heq _ _ _
      cases h
      exact ⟨v, heq, rfl⟩
    · cases h

/-- Witness for C8 amended: a current-shape payload decodes via the current
path even when version-tagged; a version-tagged legacy payload decodes via the
legacy path; a payload matching neither generation errors. -/
theorem version_fallback_c8_witness :
    decodeRecordJson (.obj [("title", Json.str "t"), ("updated_at", Json.num 9),
        ("messages", Json.arr []), ("version", Json.str "0.3.0")]) =
      .ok (.current ⟨"t", 9, []⟩) ∧
    decodeRecordJson (.obj [("version", Json.str "0.2.0"), ("summary", Json.str "s"),
        ("updated_at", Json.num 9), ("messages", Json.arr [])]) =
      .ok (.legacy ⟨"0.2.0", "s", 9, []⟩) ∧
    decodeRecordJson .null = .error "Could not deserialize as DbThread or SerializedThread" :=
  ⟨version_fallback_c8.1 _ _ rfl,
    version_fallback_c8.2.1 _ _ rfl rfl,
    version_fallback_c8.2.2.1 _ rfl rfl⟩

/-! ## Lemmas: the registry allocator -/

theorem find?_switch {α : Type} (p q : α → Bool) (l : List α) (c : α)
    (h : l.find? p = some c) (hq : q c = true)
    (hpq : ∀ x ∈ l, p x = false → q x = false) :
    l.find? q = some c := by
  induction l with
  | nil => simp at h
  | cons a as ih =>
    rw [List.find?_cons] at h ⊢
    cases hpa : p a with
    | true =>
      rw [hpa] at h
      simp only at h
      cases h
      rw [hq]
    | false =>
      rw [hpa] at h
      simp only at h
      rw [hpq a (.head _) hpa]
      simp only
      exact ih h (fun x hx => hpq x (.tail _ hx))

theorem allocGo_eq_find (id slug : String) (cs : List String) (reg : Registry) :
    allocGo id slug cs reg =
      match cs.find? (eligB reg id) with
      | some c => some (mkStem c slug, if alFind reg c = none then alInsert reg c id else reg)
      | none => none := by
  induction cs with
  | nil => rfl
  | cons c rest ih =>
    rw [List.find?_cons]
    cases hf : alFind reg c with
    | none =>
      have he : eligB reg id c = true := by simp [eligB, hf]
      rw [he]
      simp [allocGo, hf]
    | some v =>
      by_cases hv : v = id
      · have he : eligB reg id c = true := by simp [eligB, hf, hv]
        rw [he]
        simp [allocGo, hf, hv]
      · have he : eligB reg id c = false := by simp [eligB, hf, hv]
        rw [he]
        simp only [allocGo, hf, hv, ih, if_neg]
        rfl

theorem candidates_shape (id : String) (c : String) (h : c ∈ candidates id) :
    ∃ l, c = strTake id l := by
  rw [candidates] at h
  rcases List.mem_cons.mp h with h | h
  · exact ⟨8, h⟩
  rcases List.mem_cons.mp h with h | h
  · exact ⟨12, h⟩
  rcases List.mem_cons.mp h with h | h
  · exact ⟨id.toList.length, h⟩
  · exact absurd h (List.not_mem_nil c)

theorem candidates_last_elig (id : String) (reg : Registry)
    (hself : ∀ v, alFind reg id = some v → v = id) :
    ∃ c ∈ candidates id, eligB reg id c = true := by
  refine ⟨strTake id id.toList.length, by simp [candidates], ?_⟩
  rw [strTake_full]
  cases hf : alFind reg id with
  | none => simp [eligB, hf]
  | some v => simp [eligB, hf, hself v hf]

/-! ## Claim C5: prefix claims are never rebound; 8-char collisions fall back -/

/-- C5: a prefix→id binding in the registry survives every later allocation
unchanged, and two distinct ids longer than 8 characters sharing their 8-char
prefix allocate distinct stems, the second falling back to its 12-character
(or clamped full-id) prefix. -/
theorem registry_prefix_stability_c5 :
    (∀ reg id t p v, alFind reg p = some v →
      alFind (allocateFilename id t reg).2 p = some v) ∧
    (∀ i1 i2 t1 t2, i1 ≠ i2 → strTake i1 8 = strTake i2 8 →
      8 < i1.toList.length → 8 < i2.toList.length →
      noUnderscore i1 → noUnderscore i2 →
      (allocateFilename i2 t2 (allocateFilename i1 t1 []).2).1 =
          mkStem (strTake i2 12) (slugOf t2) ∧
        (allocateFilename i2 t2 (allocateFilename i1 t1 []).2).1 ≠
          (allocateFilename i1 t1 []).1) := by
  constructor
  · intro reg id t p v h
    rw [allocateFilename, allocGo_eq_find]
    cases hf : (candidates id).find? (eligB reg id) with
    | none => simpa using h
    | some c =>
      by_cases hc : alFind reg c = none
      · simp only [hf, if_pos hc]
        have hpc : p ≠ c := fun hq => by rw [hq, hc] at h; cases h
        rw [alFind_insert_ne reg c p id hpc]
        exact h
      · simp only [hf, if_neg hc]
        exact h
  · intro i1 i2 t1 t2 hne h8 hl1 hl2 hu1 hu2
    have halloc1 : allocateFilename i1 t1 [] =
        (mkStem (strTake i1 8) (slugOf t1), [(strTake i1 8, i1)]) := by
      rw [allocateFilename, allocGo_eq_find]
      have : (candidates i1).find? (eligB [] i1) = some (strTake i1 8) := by
        rw [candidates, List.find?_cons]
        have : eligB [] i1 (strTake i1 8) = true := by simp [eligB, alFind]
        rw [this]
      rw [this]
      simp [alFind, alInsert]
    have hlen8 : (strTake i1 8).toList.length = 8 := by
      rw [strTake_length]
      omega
    have hlen12 : 8 < (strTake i2 12).toList.length := by
      rw [strTake_length]
      omega
    have hne12_8 : strTake i2 12 ≠ strTake i1 8 := by
      intro hc
      rw [hc, hlen8] at hlen12
      omega
    have halloc2 : (allocateFilename i2 t2 [(strTake i1 8, i1)]).1 =
        mkStem (strTake i2 12) (slugOf t2) := by
      rw [allocateFilename, allocGo_eq_find]
      have hf1 : alFind [(strTake i1 8, i1)] (strTake i2 8) = some i1 := by
        rw [← h8]
        simp [alFind, List.find?]
      have he1 : eligB [(strTake i1 8, i1)] i2 (strTake i2 8) = false := by
        simp [eligB, hf1]
        exact fun hc => hne hc
      have hf2 : alFind [(strTake i1 8, i1)] (strTake i2 12) = none := by
        have hb : (strTake i1 8 == strTake i2 12) = false :=
          beq_eq_false_iff_ne.mpr (fun hc => hne12_8 hc.symm)
        simp [alFind, List.find?_cons, hb]
      have he2 : eligB [(strTake i1 8, i1)] i2 (strTake i2 12) = true := by
        simp [eligB, hf2]
      have hfind : (candidates i2).find? (eligB [(strTake i1 8, i1)] i2) =
          some (strTake i2 12) := by
        rw [candidates, List.find?_cons, he1]
        simp only
        rw [List.find?_cons, he2]
      rw [hfind]
    rw [halloc1] at *
    refine ⟨halloc2, ?_⟩
    rw [halloc2]
    intro hc
    have hp1 : prefixOf (mkStem (strTake i2 12) (slugOf t2)) = strTake i2 12 :=
      prefixOf_mkStem _ (noUnderscore_strTake hu2 12)
    have hp2 : prefixOf (mkStem (strTake i1 8) (slugOf t1)) = strTake i1 8 :=
      prefixOf_mkStem _ (noUnderscore_strTake hu1 8)
    rw [hc, hp2] at hp1
    exact hne12_8 hp1.symm

/-- Witness for C5: a concrete registry binding survives an allocation, and
two ids sharing "aaaabbbb" resolve to distinct stems via the 12-char prefix. -/
theorem registry_prefix_stability_c5_witness :
    alFind (allocateFilename "aaaabbbbcccc0001" "One" [("zzzz", "zzzz-id")]).2 "zzzz" =
      some "zzzz-id" ∧
    (allocateFilename "aaaabbbbdddd0002" "Two"
        (allocateFilename "aaaabbbbcccc0001" "One" []).2).1 =
      mkStem (strTake "aaaabbbbdddd0002" 12) (slugOf "Two") ∧
    (allocateFilename "aaaabbbbdddd0002" "Two"
        (allocateFilename "aaaabbbbcccc0001" "One" []).2).1 ≠
      (allocateFilename "aaaabbbbcccc0001" "One" []).1 := by
  refine ⟨registry_prefix_stability_c5.1 _ _ _ _ _ rfl, ?_, ?_⟩
  · exact (registry_prefix_stability_c5.2 "aaaabbbbcccc0001" "aaaabbbbdddd0002" "One" "Two"
      (by decide) (by decide) (by decide) (by decide) (by decide) (by decide)).1
  · exact (registry_prefix_stability_c5.2 "aaaabbbbcccc0001" "aaaabbbbdddd0002" "One" "Two"
      (by decide) (by decide) (by decide) (by decide) (by decide) (by decide)).2

/-! ## Claim C6: the allocator contract -/

/-- C6: allocate(id, title) returns the first candidate prefix (lengths 8, 12,
full id, in order) that is unclaimed or claimed by this id, suffixed with the
derived slug; re-allocating with the same id and title returns the same stem
and leaves the registry unchanged; when the full id is claimed by no other id
the loop terminates with a stem no longer than the full id plus separator plus
slug; the slug is truncated to 60 characters with no trailing separator. -/
theorem allocate_firstfit_c6 (id title : String) (reg : Registry)
    (hself : ∀ v, alFind reg id = some v → v = id) :
    ∃ c, (candidates id).find? (eligB reg id) = some c ∧
      (allocateFilename id title reg).1 = mkStem c (slugOf title) ∧
      allocateFilename id title (allocateFilename id title reg).2 =
        allocateFilename id title reg ∧
      (allocateFilename id title reg).1.toList.length ≤
        id.toList.length + 1 + (slugOf title).toList.length ∧
      (slugOf title).toList.length ≤ 60 ∧
      (∀ a, (slugOf title).toList.getLast? = some a → (a == '-') = false) := by
  obtain ⟨c0, hc0mem, hc0⟩ := candidates_last_elig id reg hself
  have hsome : ((candidates id).find? (eligB reg id)).isSome := by
    rw [List.find?_isSome]
    exact ⟨c0, hc0mem, hc0⟩
  cases hfind : (candidates id).find? (eligB reg id) with
  | none => rw [hfind] at hsome; cases hsome
  | some c =>
  have halloc : allocateFilename id title reg =
      (mkStem c (slugOf title), if alFind reg c = none then alInsert reg c id else reg) := by
    rw [allocateFilename, allocGo_eq_find, hfind]
  have hlen : (allocateFilename id title reg).1.toList.length ≤
      id.toList.length + 1 + (slugOf title).toList.length := by
    obtain ⟨l, hl⟩ := candidates_shape id c (List.mem_of_find?_eq_some hfind)
    rw [halloc]
    have h1 := mkStem_toList_length c (slugOf title)
    have h2 : c.toList.length ≤ id.toList.length := by
      rw [hl, strTake_length]
      omega
    simp only
    omega
  have hidem : allocateFilename id title (allocateFilename id title reg).2 =
      allocateFilename id title reg := by
    by_cases hc : alFind reg c = none
    · have hreg2 : (allocateFilename id title reg).2 = alInsert reg c id := by
        rw [halloc, if_pos hc]
      have hfind2 : (candidates id).find? (eligB (alInsert reg c id) id) = some c := by
        apply find?_switch (eligB reg id) _ _ c hfind
        · simp [eligB, alFind_insert_self]
        · intro x hx hpx
          have hxc : x ≠ c := by
            intro hq
            rw [hq] at hpx
            rw [List.find?_some hfind] at hpx
            cases hpx
          simp only [eligB, alFind_insert_ne reg c x id hxc]
          exact hpx
      rw [hreg2, allocateFilename, allocGo_eq_find, hfind2]
      have hfc : alFind (alInsert reg c id) c = some id := alFind_insert_self reg c id
      rw [halloc, if_pos hc]
      simp [hfc]
    · have hreg2 : (allocateFilename id title reg).2 = reg := by
        rw [halloc, if_neg hc]
      rw [hreg2]
  exact ⟨c, rfl, by rw [halloc], hidem, hlen, slugOf_length title,
    fun a ha => slugOf_no_trailing_dash title ha⟩

/-- Witness for C6 at a concrete id, title and a registry claiming the
8-char prefix for another id: allocation falls through to the 12-char prefix,
re-allocation is stable, and the slug obeys its bounds. -/
theorem allocate_firstfit_c6_witness :
    ∃ c, (candidates "aaaabbbbcccc0001").find?
        (eligB [("aaaabbbb", "aaaabbbbdddd0002")] "aaaabbbbcccc0001") = some c ∧
      (allocateFilename "aaaabbbbcccc0001" "Fix race"
          [("aaaabbbb", "aaaabbbbdddd0002")]).1 = mkStem c (slugOf "Fix race") ∧
      allocateFilename "aaaabbbbcccc0001" "Fix race"
          (allocateFilename "aaaabbbbcccc0001" "Fix race"
            [("aaaabbbb", "aaaabbbbdddd0002")]).2 =
        allocateFilename "aaaabbbbcccc0001" "Fix race"
          [("aaaabbbb", "aaaabbbbdddd0002")] ∧
      (allocateFilename "aaaabbbbcccc0001" "Fix race"
          [("aaaabbbb", "aaaabbbbdddd0002")]).1.toList.length ≤
        "aaaabbbbcccc0001".toList.length + 1 + (slugOf "Fix race").toList.length ∧
      (slugOf "Fix race").toList.length ≤ 60 ∧
      (∀ a, (slugOf "Fix race").toList.getLast? = some a → (a == '-') = false) :=
  allocate_firstfit_c6 "aaaabbbbcccc0001" "Fix race" [("aaaabbbb", "aaaabbbbdddd0002")]
    (by decide)

/-! ## Claim C1: the skip decision of the incremental planner -/

theorem exportFinish_fst (r : RecordM) (ep : Option String) (ic : Bool)
    (tags : Option (List String)) (fs : Fs) (src : DbThreadM ⊕ SerializedThreadM) :
    (exportFinish r ep ic tags fs src).1 =
      .ok (match ep with | none => ProcessResult.created | some _ => ProcessResult.updated) := rfl

theorem exportDecode_ne_skipped (r : RecordM) (ep : Option String) (ic : Bool)
    (tags : Option (List String)) (fs : Fs) (jb : JsonBytes) :
    (exportDecode r ep ic tags fs jb).1 ≠ .ok .skipped := by
  rw [exportDecode]
  cases hdb : jbDeserializeDb jb with
  | some t =>
    rw [exportFinish_fst]
    cases ep <;> simp
  | none =>
    cases hser : jbDeserializeSer jb with
    | some t =>
      rw [exportFinish_fst]
      cases ep <;> simp
    | none => simp

/-- C1: with an existing output owned by the id (parseable frontmatter), force
off, and a readable payload timestamp, export_thread skips exactly when the
stored updated_at is at least the payload's AND the stored include_context
equals the run's setting; matching timestamps with mismatched include_context
do not skip (the record proceeds to a full re-render). -/
theorem skip_decision_c1 (r : RecordM) (ex : String) (fm : FileFrontmatter)
    (jb : JsonBytes) (dbTs : Int) (includeContext : Bool) (tags : Option (List String))
    (fs : Fs)
    (hfm : parseExistingFrontmatter fs ex = some fm)
    (hjb : decompressData r.data = .ok jb)
    (hts : jbExtractTs jb = some dbTs) :
    (exportThread r (some ex) false includeContext tags fs).1 = .ok .skipped ↔
      (dbTs ≤ fm.updatedAt ∧ fm.includeContext = includeContext) := by
  rw [exportThread]
  simp only [hfm, hjb, hts]
  by_cases h : dbTs ≤ fm.updatedAt ∧ fm.includeContext = includeContext
  · rw [if_pos h]
    simp [h]
  · rw [if_neg h]
    constructor
    · intro hc
      exact absurd hc (exportDecode_ne_skipped r (some ex) includeContext tags fs jb)
    · intro hcond
      exact absurd hcond h

/-- Witness for C1: a record whose stored file matches timestamp and
include_context is skipped; with the run's include_context toggled, the same
record is not skipped. -/
theorem skip_decision_c1_witness :
    (exportThread ⟨"aaaa1111-xxxx", "t", .json (.wellFormed (.obj [("updated_at", .num 10)]))⟩
        (some "aaaa1111") false false none
        [("aaaa1111", ⟨some ⟨some "aaaa1111-xxxx", 10, false⟩, "t", "b"⟩)]).1 = .ok .skipped ∧
    ¬ (exportThread ⟨"aaaa1111-xxxx", "t", .json (.wellFormed (.obj [("updated_at", .num 10)]))⟩
        (some "aaaa1111") false true none
        [("aaaa1111", ⟨some ⟨some "aaaa1111-xxxx", 10, false⟩, "t", "b"⟩)]).1 = .ok .skipped := by
  constructor
  · exact (skip_decision_c1
      ⟨"aaaa1111-xxxx", "t", .json (.wellFormed (.obj [("updated_at", .num 10)]))⟩
      "aaaa1111" ⟨some "aaaa1111-xxxx", 10, false⟩ (.wellFormed (.obj [("updated_at", .num 10)]))
      10 false none [("aaaa1111", ⟨some ⟨some "aaaa1111-xxxx", 10, false⟩, "t", "b"⟩)]
      rfl rfl rfl).mpr ⟨by decide, rfl⟩
  · intro hc
    have := (skip_decision_c1
      ⟨"aaaa1111-xxxx", "t", .json (.wellFormed (.obj [("updated_at", .num 10)]))⟩
      "aaaa1111" ⟨some "aaaa1111-xxxx", 10, false⟩ (.wellFormed (.obj [("updated_at", .num 10)]))
      10 true none [("aaaa1111", ⟨some ⟨some "aaaa1111-xxxx", 10, false⟩, "t", "b"⟩)]
      rfl rfl rfl).mp hc
    exact absurd this.2 (by decide)

/-! ## Claim C4: ownership of existing output files -/

/-- C4 counterexample: in the sequential engine (main.rs build_file_index and
process_thread), an existing file whose name shares the record's prefix is
treated as owned by the record with no frontmatter id check: a file whose
frontmatter id belongs to a different record still causes a Skip, so a
filename-prefix match alone is sufficient there, contradicting the claim. -/
theorem ownership_by_frontmatter_c4_counterexample :
    (processThread
        ⟨"aaaa1111-0000", "", .json (.wellFormed (.obj [("title", Json.str "t"),
          ("updated_at", Json.num 50), ("messages", Json.arr [])]))⟩
        false none []
        (buildFileIndex [("aaaa1111", ⟨some ⟨some "zzzz9999-0000", 100, false⟩, "t", "old"⟩)])
        [("aaaa1111", ⟨some ⟨some "zzzz9999-0000", 100, false⟩, "t", "old"⟩)]).1 = .ok .skipped ∧
    (parseExistingFrontmatter
        [("aaaa1111", ⟨some ⟨some "zzzz9999-0000", 100, false⟩, "t", "old"⟩)] "aaaa1111").bind
      (·.id) = some "zzzz9999-0000" ∧
    "zzzz9999-0000" ≠ "aaaa1111-0000" := by
  refine ⟨rfl, rfl, by decide⟩

theorem allocParGo_cases (id slug : String) (fs : Fs) (cs : List String) (stem : String)
    (h : allocParGo id slug fs cs = some stem) :
    alFind fs stem = none ∨
      ∃ c fm, alFind fs stem = some c ∧ c.frontmatter = some fm ∧ fm.id = some id := by
  induction cs with
  | nil => cases h
  | cons c rest ih =>
    rw [allocParGo] at h
    split at h
    · rename_i hf
      cases h
      exact Or.inl hf
    · rename_i content hf
      split at h
      · rename_i fm hfm
        split at h
        · rename_i hid
          cases h
          exact Or.inr ⟨content, fm, hf, hfm, hid⟩
        · exact ih h
      · exact ih h

/-- C4 amended: in the parallel engine, ownership is always confirmed from the
existing file's frontmatter id: find_existing_file returns a path only when
that file's frontmatter id equals the record id, and allocate_filename reuses
an occupied stem only when its frontmatter id matches (otherwise it moves to a
longer prefix, with the full-id fallback as final resort).  The sequential
main.rs engine, by contrast, trusts the filename prefix alone (see the
counterexample). -/
theorem ownership_by_frontmatter_c4 :
    (∀ fs id p, findExistingFile fs id = some p →
      ∃ c fm, (p, c) ∈ fs ∧ c.frontmatter = some fm ∧ fm.id = some id) ∧
    (∀ fs id title, alFind fs (allocateFilenamePar id title fs) = none ∨
      (∃ c fm, alFind fs (allocateFilenamePar id title fs) = some c ∧
        c.frontmatter = some fm ∧ fm.id = some id) ∨
      allocateFilenamePar id title fs = mkStem id (slugOf title)) := by
  constructor
  · intro fs id p h
    rw [findExistingFile] at h
    obtain ⟨e, hmem, he⟩ := List.exists_of_findSome?_eq_some h
    have hefs : e ∈ fs := List.mem_of_mem_filter hmem
    cases hfm : e.2.frontmatter with
    | none =>
      rw [hfm] at he
      dsimp only at he
      cases he
    | some fm =>
      rw [hfm] at he
      dsimp only at he
      by_cases hid : fm.id = some id
      · rw [if_pos hid] at he
        cases he
        exact ⟨e.2, fm, by simpa using hefs, hfm, hid⟩
      · rw [if_neg hid] at he
        cases he
  · intro fs id title
    rw [allocateFilenamePar]
    cases hgo : allocParGo id (slugOf title) fs (candidates id) with
    | some stem =>
      rcases allocParGo_cases id (slugOf title) fs (candidates id) stem hgo with h | h
      · exact Or.inl h
      · exact Or.inr (Or.inl h)
    | none => exact Or.inr (Or.inr rfl)

/-- Witness for C4 amended: a directory holding a prefix-colliding file owned
by a different id: find_existing_file passes over it, and the allocator
declines to reuse its stem. -/
theorem ownership_by_frontmatter_c4_witness :
    (∀ p, findExistingFile
        [("aaaa1111", ⟨some ⟨some "aaaa1111-zzzz", 5, false⟩, "t", "o"⟩)] "aaaa1111-xxxx" = some p →
      ∃ c fm, (p, c) ∈ [("aaaa1111", (⟨some ⟨some "aaaa1111-zzzz", 5, false⟩, "t", "o"⟩ : FileContent))] ∧
        c.frontmatter = some fm ∧ fm.id = some "aaaa1111-xxxx") ∧
    (alFind [("aaaa1111", (⟨some ⟨some "aaaa1111-zzzz", 5, false⟩, "t", "o"⟩ : FileContent))]
        (allocateFilenamePar "aaaa1111-xxxx" ""
          [("aaaa1111", ⟨some ⟨some "aaaa1111-zzzz", 5, false⟩, "t", "o"⟩)]) = none ∨
      (∃ c fm, alFind [("aaaa1111", (⟨some ⟨some "aaaa1111-zzzz", 5, false⟩, "t", "o"⟩ : FileContent))]
          (allocateFilenamePar "aaaa1111-xxxx" ""
            [("aaaa1111", ⟨some ⟨some "aaaa1111-zzzz", 5, false⟩, "t", "o"⟩)]) = some c ∧
        c.frontmatter = some fm ∧ fm.id = some "aaaa1111-xxxx") ∨
      allocateFilenamePar "aaaa1111-xxxx" ""
          [("aaaa1111", ⟨some ⟨some "aaaa1111-zzzz", 5, false⟩, "t", "o"⟩)] =
        mkStem "aaaa1111-xxxx" (slugOf "")) :=
  ⟨fun p => ownership_by_frontmatter_c4.1 _ "aaaa1111-xxxx" p,
    ownership_by_frontmatter_c4.2 _ "aaaa1111-xxxx" ""⟩

/-! ## Lemmas: the sequential loop -/

theorem decompressData_error_ne_decode (d : StoredData) (e : ExpErr)
    (h : decompressData d = .error e) : e ≠ .decodeFailed := by
  cases d with
  | json b => cases h
  | zstd intact b =>
    cases intact with
    | true => cases h
    | false => cases h; simp
  | other t => cases h; simp

theorem processWrite_ne_skipped (r : RecordM) (tags : Option (List String)) (reg : Registry)
    (idx : FileIndex) (fs : Fs) (stem pfx : String) (existing : Option String) (jb : JsonBytes) :
    (processWrite r tags reg idx fs stem pfx existing jb).1 ≠ .ok .skipped := by
  cases existing <;> cases hdb : jbDeserializeDb jb <;> cases hser : jbDeserializeSer jb <;>
    simp [processWrite, hdb, hser]

theorem processRest_ne_skipped (r : RecordM) (tags : Option (List String)) (reg : Registry)
    (idx : FileIndex) (fs : Fs) (stem pfx : String) (existing : Option String) :
    (processRest r tags reg idx fs stem pfx existing).1 ≠ .ok .skipped := by
  rw [processRest]
  cases hd : decompressData r.data with
  | error e => simp
  | ok jb => exact processWrite_ne_skipped r tags reg idx fs stem pfx existing jb

/-- The Skip exit of process_thread leaves index and filesystem untouched. -/
theorem processThread_skipped_state (r : RecordM) (force : Bool)
    (tags : Option (List String)) (reg : Registry) (idx : FileIndex) (fs : Fs)
    {res : Except ExpErr ProcessResult} {reg' : Registry} {idx' : FileIndex} {fs' : Fs}
    (h : processThread r force tags reg idx fs = (res, reg', idx', fs'))
    (hres : res = .ok .skipped) : fs' = fs ∧ idx' = idx := by
  subst hres
  simp only [processThread] at h
  split at h
  · split at h
    · split at h
      · simp only [Prod.mk.injEq] at h
        exact absurd h.1 (by simp)
      · split at h
        · split at h
          · simp only [Prod.mk.injEq] at h
            exact ⟨h.2.2.2.symm, h.2.2.1.symm⟩
          · exact absurd (congrArg (fun q => q.1) h)
              (by simpa using processWrite_ne_skipped r tags _ idx fs _ _ _ _)
        · exact absurd (congrArg (fun q => q.1) h)
            (by simpa using processWrite_ne_skipped r tags _ idx fs _ _ _ _)
    · exact absurd (congrArg (fun q => q.1) h)
        (by simpa using processRest_ne_skipped r tags _ idx fs _ _ _)
  · exact absurd (congrArg (fun q => q.1) h)
      (by simpa using processRest_ne_skipped r tags _ idx fs _ _ _)

theorem processWrite_error_find (r : RecordM) (tags : Option (List String)) (reg : Registry)
    (idx : FileIndex) (fs : Fs) (stem pfx : String) (existing : Option String) (jb : JsonBytes)
    {e : ExpErr} {reg' : Registry} {idx' : FileIndex} {fs' : Fs}
    (h : processWrite r tags reg idx fs stem pfx existing jb = (.error e, reg', idx', fs')) :
    alFind fs' stem = none := by
  simp only [processWrite] at h
  split at h
  · simp only [Prod.mk.injEq] at h
    exact absurd h.1 (by simp)
  · split at h
    · simp only [Prod.mk.injEq] at h
      exact absurd h.1 (by simp)
    · simp only [Prod.mk.injEq] at h
      rw [← h.2.2.2]
      exact alFind_erase_self _ _

theorem processThread_error_find (r : RecordM) (force : Bool) (tags : Option (List String))
    (reg : Registry) (idx : FileIndex) (fs : Fs)
    {reg' : Registry} {idx' : FileIndex} {fs' : Fs}
    (h : processThread r force tags reg idx fs = (.error .decodeFailed, reg', idx', fs')) :
    alFind fs' ((allocateFilename r.id r.title reg).1) = none := by
  simp only [processThread] at h
  split at h
  · split at h
    · split at h
      · rename_i e hd
        simp only [Prod.mk.injEq] at h
        have he : e = ExpErr.decodeFailed := by
          have := h.1
          injection this
        exact absurd he (decompressData_error_ne_decode r.data e hd)
      · split at h
        · split at h
          · simp only [Prod.mk.injEq] at h
            exact absurd h.1 (by simp)
          · exact processWrite_error_find r tags _ idx fs _ _ _ _ h
        · exact processWrite_error_find r tags _ idx fs _ _ _ _ h
    · simp only [processRest] at h
      split at h
      · rename_i e hd
        simp only [Prod.mk.injEq] at h
        have he : e = ExpErr.decodeFailed := by
          have := h.1
          injection this
        exact absurd he (decompressData_error_ne_decode r.data e hd)
      · exact processWrite_error_find r tags _ idx fs _ _ _ _ h
  · simp only [processRest] at h
    split at h
    · rename_i e hd
      simp only [Prod.mk.injEq] at h
      have he : e = ExpErr.decodeFailed := by
        have := h.1
        injection this
      exact absurd he (decompressData_error_ne_decode r.data e hd)
    · exact processWrite_error_find r tags _ idx fs _ _ _ _ h

theorem runLoop_cons_error (force : Bool) (tags : Option (List String)) (r : RecordM)
    (rest : List RecordM) (total : Nat) (cnt : Counts) (reg : Registry) (idx : FileIndex)
    (fs : Fs) {e : ExpErr} {reg' : Registry} {idx' : FileIndex} {fs' : Fs}
    (h : processThread r force tags reg idx fs = (.error e, reg', idx', fs')) :
    runLoop force tags (r :: rest) total cnt reg idx fs =
      runLoop force tags rest total ⟨cnt.created, cnt.updated, cnt.skipped, cnt.errors + 1⟩
        reg' idx' fs' := by
  rw [runLoop, h]

theorem runLoop_cons_skipped (force : Bool) (tags : Option (List String)) (r : RecordM)
    (rest : List RecordM) (total : Nat) (cnt : Counts) (reg : Registry) (idx : FileIndex)
    (fs : Fs) {reg' : Registry} {idx' : FileIndex} {fs' : Fs}
    (h : processThread r force tags reg idx fs = (.ok .skipped, reg', idx', fs')) :
    runLoop force tags (r :: rest) total cnt reg idx fs =
      (⟨cnt.created, cnt.updated,
        (cnt.skipped + 1) +
          (total - (cnt.created + cnt.updated + (cnt.skipped + 1) + cnt.errors)),
        cnt.errors⟩, fs') := by
  rw [runLoop, h]

theorem runLoop_cons_created (force : Bool) (tags : Option (List String)) (r : RecordM)
    (rest : List RecordM) (total : Nat) (cnt : Counts) (reg : Registry) (idx : FileIndex)
    (fs : Fs) {reg' : Registry} {idx' : FileIndex} {fs' : Fs}
    (h : processThread r force tags reg idx fs = (.ok .created, reg', idx', fs')) :
    runLoop force tags (r :: rest) total cnt reg idx fs =
      runLoop force tags rest total ⟨cnt.created + 1, cnt.updated, cnt.skipped, cnt.errors⟩
        reg' idx' fs' := by
  rw [runLoop, h]

theorem runLoop_cons_updated (force : Bool) (tags : Option (List String)) (r : RecordM)
    (rest : List RecordM) (total : Nat) (cnt : Counts) (reg : Registry) (idx : FileIndex)
    (fs : Fs) {reg' : Registry} {idx' : FileIndex} {fs' : Fs}
    (h : processThread r force tags reg idx fs = (.ok .updated, reg', idx', fs')) :
    runLoop force tags (r :: rest) total cnt reg idx fs =
      runLoop force tags rest total ⟨cnt.created, cnt.updated + 1, cnt.skipped, cnt.errors⟩
        reg' idx' fs' := by
  rw [runLoop, h]

/-- Every row contributes exactly one outcome: the loop's counters always sum
to the announced total. -/
theorem runLoop_sum (force : Bool) (tags : Option (List String)) :
    ∀ (todo : List RecordM) (total : Nat) (cnt : Counts) (reg : Registry)
      (idx : FileIndex) (fs : Fs),
      cnt.created + cnt.updated + cnt.skipped + cnt.errors + todo.length = total →
      (runLoop force tags todo total cnt reg idx fs).1.created +
        (runLoop force tags todo total cnt reg idx fs).1.updated +
        (runLoop force tags todo total cnt reg idx fs).1.skipped +
        (runLoop force tags todo total cnt reg idx fs).1.errors = total := by
  intro todo
  induction todo with
  | nil =>
    intro total cnt reg idx fs h
    simpa [runLoop] using h
  | cons r rest ih =>
    intro total cnt reg idx fs h
    simp only [List.length_cons] at h
    rcases hres : processThread r force tags reg idx fs with ⟨res, reg2, idx2, fs2⟩
    match res with
    | .ok .created =>
      rw [runLoop_cons_created force tags r rest total cnt reg idx fs hres]
      apply ih
      simp
      omega
    | .ok .updated =>
      rw [runLoop_cons_updated force tags r rest total cnt reg idx fs hres]
      apply ih
      simp
      omega
    | .ok .skipped =>
      rw [runLoop_cons_skipped force tags r rest total cnt reg idx fs hres]
      simp
      omega
    | .error e =>
      rw [runLoop_cons_error force tags r rest total cnt reg idx fs hres]
      apply ih
      simp
      omega

/-! ## Claim C9: per-record failures are contained -/

/-- C9: a per-record failure is caught at the loop boundary: the loop counts
the error and continues with the next record (never aborting the run), and a
decode failure discovered after the output file was created deletes that file
(the record's stem is absent from the resulting filesystem). -/
theorem per_record_failure_c9 :
    (∀ (r : RecordM) (rest : List RecordM) (force : Bool) (tags : Option (List String))
      (total : Nat) (cnt : Counts) (reg : Registry) (idx : FileIndex) (fs : Fs)
      (e : ExpErr) (reg' : Registry) (idx' : FileIndex) (fs' : Fs),
      processThread r force tags reg idx fs = (.error e, reg', idx', fs') →
      runLoop force tags (r :: rest) total cnt reg idx fs =
        runLoop force tags rest total ⟨cnt.created, cnt.updated, cnt.skipped, cnt.errors + 1⟩
          reg' idx' fs') ∧
    (∀ (r : RecordM) (force : Bool) (tags : Option (List String)) (reg : Registry)
      (idx : FileIndex) (fs : Fs) (reg' : Registry) (idx' : FileIndex) (fs' : Fs),
      processThread r force tags reg idx fs = (.error .decodeFailed, reg', idx', fs') →
      alFind fs' ((allocateFilename r.id r.title reg).1) = none) :=
  ⟨fun r rest force tags total cnt reg idx fs _ _ _ _ h =>
      runLoop_cons_error force tags r rest total cnt reg idx fs h,
    fun r force tags reg idx fs _ _ _ h =>
      processThread_error_find r force tags reg idx fs h⟩

/-- Witness for C9: a record whose payload is not valid JSON errors, the loop
counts it and moves on, and the pre-existing output file at its stem has been
deleted rather than left truncated. -/
theorem per_record_failure_c9_witness :
    runLoop false none [⟨"eeee5555-0003", "", .json .malformed⟩] 1 ⟨0, 0, 0, 0⟩ []
        (buildFileIndex [("eeee5555", ⟨some ⟨none, 3, false⟩, "t", "x"⟩)])
        [("eeee5555", ⟨some ⟨none, 3, false⟩, "t", "x"⟩)] =
      runLoop false none [] 1 ⟨0, 0, 0, 1⟩ [("eeee5555", "eeee5555-0003")]
        [("eeee5555", "eeee5555")] [] ∧
    alFind ([] : Fs) (allocateFilename "eeee5555-0003" "" []).1 = none :=
  ⟨per_record_failure_c9.1 ⟨"eeee5555-0003", "", .json .malformed⟩ [] false none 1
      ⟨0, 0, 0, 0⟩ [] (buildFileIndex [("eeee5555", ⟨some ⟨none, 3, false⟩, "t", "x"⟩)])
      [("eeee5555", ⟨some ⟨none, 3, false⟩, "t", "x"⟩)] .decodeFailed
      [("eeee5555", "eeee5555-0003")] [("eeee5555", "eeee5555")] [] rfl,
    per_record_failure_c9.2 ⟨"eeee5555-0003", "", .json .malformed⟩ false none []
      (buildFileIndex [("eeee5555", ⟨some ⟨none, 3, false⟩, "t", "x"⟩)])
      [("eeee5555", ⟨some ⟨none, 3, false⟩, "t", "x"⟩)]
      [("eeee5555", "eeee5555-0003")] [("eeee5555", "eeee5555")] [] rfl⟩

/-! ## Claim C3: early stop on the first Skip -/

/-- C3 counterexample: the first Skip does not guarantee that the remaining
older records are up to date.  Record A (payload ts 10, stored ts 10) skips
and the loop counts the remaining record B as skipped, yet B is stale: its
stored timestamp 1 is below its payload timestamp 5. -/
theorem early_stop_c3_counterexample :
    (runExport
        [⟨"aaaabbbb-0001", "", .json (.wellFormed (.obj [("updated_at", Json.num 10)]))⟩,
          ⟨"ccccdddd-0002", "", .json (.wellFormed (.obj [("updated_at", Json.num 5)]))⟩]
        false none
        [("aaaabbbb", ⟨some ⟨none, 10, false⟩, "t", "a"⟩),
          ("ccccdddd", ⟨some ⟨none, 1, false⟩, "t", "b"⟩)]).1 = ⟨0, 0, 2, 0⟩ ∧
    recSrcTs ⟨"ccccdddd-0002", "", .json (.wellFormed (.obj [("updated_at", Json.num 5)]))⟩ =
      some 5 ∧
    ¬ upToDateF
        (fun id => (parseExistingFrontmatter
          [("aaaabbbb", ⟨some ⟨none, 10, false⟩, "t", "a"⟩),
            ("ccccdddd", ⟨some ⟨none, 1, false⟩, "t", "b"⟩)] (strTake id 8)).map (·.updatedAt))
        ⟨"ccccdddd-0002", "", .json (.wellFormed (.obj [("updated_at", Json.num 5)]))⟩ := by
  refine ⟨rfl, rfl, ?_⟩
  rintro ⟨ts, fts, h1, h2, h3⟩
  have hts : (some (5 : Int) : Option Int) = some ts := h1
  have hfts : (some (1 : Int) : Option Int) = some fts := h2
  injection hts with hts
  injection hfts with hfts
  subst hts
  subst hfts
  omega

/-- C3 amended: on the first Skip the sequential loop stops — the remaining
records are never decoded or written, they are all counted as Skipped, and the
final counters always satisfy created+updated+skipped+errors = total; the
remaining records are guaranteed up to date only under the additional frontier
hypothesis that every record that is not up to date has a payload timestamp
strictly newer than the first skipped record's. -/
theorem early_stop_c3 :
    (∀ (r : RecordM) (rest : List RecordM) (force : Bool) (tags : Option (List String))
      (total : Nat) (cnt : Counts) (reg : Registry) (idx : FileIndex) (fs : Fs)
      (reg' : Registry) (idx' : FileIndex) (fs' : Fs),
      processThread r force tags reg idx fs = (.ok .skipped, reg', idx', fs') →
      runLoop force tags (r :: rest) total cnt reg idx fs =
        (⟨cnt.created, cnt.updated,
          (cnt.skipped + 1) +
            (total - (cnt.created + cnt.updated + (cnt.skipped + 1) + cnt.errors)),
          cnt.errors⟩, fs) ∧ fs' = fs) ∧
    (∀ (records : List RecordM) (force : Bool) (tags : Option (List String)) (fs : Fs),
      (runExport records force tags fs).1.created + (runExport records force tags fs).1.updated +
        (runExport records force tags fs).1.skipped + (runExport records force tags fs).1.errors =
        records.length) ∧
    (∀ (records : List RecordM) (F : String → Option Int) (pre : List RecordM) (rSkip : RecordM)
      (post : List RecordM),
      records = pre ++ rSkip :: post →
      records.Pairwise (fun a b => ∀ ta tb, recSrcTs a = some ta → recSrcTs b = some tb → tb ≤ ta) →
      (∀ r ∈ records, (recSrcTs r).isSome) →
      upToDateF F rSkip →
      (∀ r ∈ records, ¬ upToDateF F r →
        ∀ tr tk, recSrcTs r = some tr → recSrcTs rSkip = some tk → tk < tr) →
      ∀ r ∈ post, upToDateF F r) := by
  refine ⟨?_, ?_, ?_⟩
  · intro r rest force tags total cnt reg idx fs reg' idx' fs' h
    have hs := processThread_skipped_state r force tags reg idx fs h rfl
    rw [runLoop_cons_skipped force tags r rest total cnt reg idx fs h, hs.1]
    exact ⟨rfl, rfl⟩
  · intro records force tags fs
    exact runLoop_sum force tags records records.length ⟨0, 0, 0, 0⟩ []
      (buildFileIndex fs) fs (by simp)
  · intro records F pre rSkip post heq hsorted hts hskip hfrontier r hr
    subst heq
    by_contra hnot
    have hp : (rSkip :: post).Pairwise
        (fun a b => ∀ ta tb, recSrcTs a = some ta → recSrcTs b = some tb → tb ≤ ta) :=
      (List.pairwise_append.mp hsorted).2.1
    have hrel := (List.pairwise_cons.mp hp).1 r hr
    obtain ⟨tk, fk, hktk, hkF, hkle⟩ := hskip
    have hrmem : r ∈ pre ++ rSkip :: post := by
      apply List.mem_append_right
      exact List.mem_cons_of_mem _ hr
    obtain ⟨tr, htr⟩ := Option.isSome_iff_exists.mp (hts r hrmem)
    have hlt := hfrontier r hrmem hnot tr tk htr hktk
    have hle := hrel tk tr hktk htr
    omega

/-- Witness for C3: a concrete Skip stops a two-record loop with the remaining
record absorbed into the skip counter and the filesystem untouched; a concrete
frontier instance (stale record strictly newer than the skipped one) makes the
remaining record up to date. -/
theorem early_stop_c3_witness :
    (runLoop false none
        [⟨"aaaabbbb-0001", "", .json (.wellFormed (.obj [("updated_at", Json.num 10)]))⟩,
          ⟨"ccccdddd-0002", "", .json (.wellFormed (.obj [("updated_at", Json.num 5)]))⟩] 2
        ⟨0, 0, 0, 0⟩ []
        (buildFileIndex [("aaaabbbb", ⟨some ⟨none, 10, false⟩, "t", "a"⟩)])
        [("aaaabbbb", ⟨some ⟨none, 10, false⟩, "t", "a"⟩)] =
      (⟨0, 0, 2, 0⟩, [("aaaabbbb", ⟨some ⟨none, 10, false⟩, "t", "a"⟩)]) ∧
      [("aaaabbbb", (⟨some ⟨none, 10, false⟩, "t", "a"⟩ : FileContent))] =
        [("aaaabbbb", ⟨some ⟨none, 10, false⟩, "t", "a"⟩)]) ∧
    (∀ r ∈ [⟨"ffff0000-0009", "", .json (.wellFormed (.obj [("updated_at", Json.num 5)]))⟩],
      upToDateF
        (fun id => if id = "eeee9999-0008" then some 1
          else if id = "aaaabbbb-0001" then some 10 else some 5)
        (r : RecordM)) := by
  constructor
  · exact early_stop_c3.1
      ⟨"aaaabbbb-0001", "", .json (.wellFormed (.obj [("updated_at", Json.num 10)]))⟩
      [⟨"ccccdddd-0002", "", .json (.wellFormed (.obj [("updated_at", Json.num 5)]))⟩]
      false none 2 ⟨0, 0, 0, 0⟩ []
      (buildFileIndex [("aaaabbbb", ⟨some ⟨none, 10, false⟩, "t", "a"⟩)])
      [("aaaabbbb", ⟨some ⟨none, 10, false⟩, "t", "a"⟩)]
      [("aaaabbbb", "aaaabbbb-0001")]
      (buildFileIndex [("aaaabbbb", ⟨some ⟨none, 10, false⟩, "t", "a"⟩)])
      [("aaaabbbb", ⟨some ⟨none, 10, false⟩, "t", "a"⟩)] rfl
  · apply early_stop_c3.2.2
      [⟨"eeee9999-0008", "", .json (.wellFormed (.obj [("updated_at", Json.num 20)]))⟩,
        ⟨"aaaabbbb-0001", "", .json (.wellFormed (.obj [("updated_at", Json.num 10)]))⟩,
        ⟨"ffff0000-0009", "", .json (.wellFormed (.obj [("updated_at", Json.num 5)]))⟩]
      (fun id => if id = "eeee9999-0008" then some 1
        else if id = "aaaabbbb-0001" then some 10 else some 5)
      [⟨"eeee9999-0008", "", .json (.wellFormed (.obj [("updated_at", Json.num 20)]))⟩]
      ⟨"aaaabbbb-0001", "", .json (.wellFormed (.obj [("updated_at", Json.num 10)]))⟩
      [⟨"ffff0000-0009", "", .json (.wellFormed (.obj [("updated_at", Json.num 5)]))⟩]
      rfl
    · refine List.Pairwise.cons ?_ (List.Pairwise.cons ?_ (List.pairwise_singleton _ _))
      · intro b hb ta tb h1 h2
        have h1' : (some (20 : Int) : Option Int) = some ta := h1
        injection h1' with h1'
        subst h1'
        rcases List.mem_cons.mp hb with hb | hb
        · subst hb
          have h2' : (some (10 : Int) : Option Int) = some tb := h2
          injection h2' with h2'
          omega
        · rcases List.mem_cons.mp hb with hb | hb
          · subst hb
            have h2' : (some (5 : Int) : Option Int) = some tb := h2
            injection h2' with h2'
            omega
          · exact absurd hb (List.not_mem_nil b)
      · intro b hb ta tb h1 h2
        have h1' : (some (10 : Int) : Option Int) = some ta := h1
        injection h1' with h1'
        subst h1'
        rcases List.mem_cons.mp hb with hb | hb
        · subst hb
          have h2' : (some (5 : Int) : Option Int) = some tb := h2
          injection h2' with h2'
          omega
        · exact absurd hb (List.not_mem_nil b)
    · intro q hq
      rcases List.mem_cons.mp hq with hq | hq
      · subst hq; rfl
      rcases List.mem_cons.mp hq with hq | hq
      · subst hq; rfl
      rcases List.mem_cons.mp hq with hq | hq
      · subst hq; rfl
      · exact absurd hq (List.not_mem_nil q)
    · exact ⟨10, 10, rfl, rfl, by omega⟩
    · intro q hq hnot tr tk h1 h2
      rcases List.mem_cons.mp hq with hq | hq
      · subst hq
        have h1' : (some (20 : Int) : Option Int) = some tr := h1
        have h2' : (some (10 : Int) : Option Int) = some tk := h2
        injection h1' with h1'
        injection h2' with h2'
        omega
      rcases List.mem_cons.mp hq with hq | hq
      · subst hq
        exact absurd ⟨10, 10, rfl, rfl, by omega⟩ hnot
      rcases List.mem_cons.mp hq with hq | hq
      · subst hq
        exact absurd ⟨5, 5, rfl, rfl, by omega⟩ hnot
      · exact absurd hq (List.not_mem_nil q)

/-! ## Lemmas: allocation under prefix-isolated ids -/

theorem strIsPref_refl (s : String) : strIsPref s s := List.prefix_refl _

theorem candidates_pos (i : String) (hnz : i ≠ "") (c : String) (h : c ∈ candidates i) :
    ∃ l, 0 < l ∧ c = strTake i l := by
  rw [candidates] at h
  have hlp : 0 < i.toList.length := by
    apply List.length_pos.mpr
    intro hq
    exact hnz ((toList_eq_nil_iff i).mp hq)
  rcases List.mem_cons.mp h with h | h
  · exact ⟨8, by omega, h⟩
  rcases List.mem_cons.mp h with h | h
  · exact ⟨12, by omega, h⟩
  rcases List.mem_cons.mp h with h | h
  · exact ⟨i.toList.length, hlp, h⟩
  · exact absurd h (List.not_mem_nil c)

/-- Under prefix isolation, allocate_filename always claims a fresh candidate:
it returns a stem built from an unclaimed prefix of the id and registers it. -/
theorem alloc_fresh (reg : Registry) (i t : String)
    (hreg : RegPfxInv reg) (hfresh : freshFor reg i) (hnz : i ≠ "") (hund : noUnderscore i) :
    ∃ c, alFind reg c = none ∧
      allocateFilename i t reg = (mkStem c (slugOf t), alInsert reg c i) ∧
      c ≠ "" ∧ noUnderscore c ∧ strIsPref c i ∧
      prefixOf ((allocateFilename i t reg).1) = c := by
  have helig : ∀ c, eligB reg i c = true ↔ alFind reg c = none := by
    intro c
    cases hf : alFind reg c with
    | none => simp [eligB, hf]
    | some v =>
      simp [eligB, hf]
      intro hv
      subst hv
      exact (hfresh c v hf).1 (strIsPref_refl v)
  have hlast : eligB reg i (strTake i i.toList.length) = true := by
    rw [strTake_full, helig]
    cases hf : alFind reg i with
    | none => rfl
    | some v => exact absurd ((hreg i v hf).2.2) (hfresh i v hf).1
  have hsome : ((candidates i).find? (eligB reg i)).isSome := by
    rw [List.find?_isSome]
    exact ⟨_, by simp [candidates], hlast⟩
  cases hfind : (candidates i).find? (eligB reg i) with
  | none => rw [hfind] at hsome; cases hsome
  | some c =>
  have hcel : eligB reg i c = true := List.find?_some hfind
  have hcnone : alFind reg c = none := (helig c).mp hcel
  obtain ⟨l, hl, hcl⟩ := candidates_pos i hnz c (List.mem_of_find?_eq_some hfind)
  have halloc : allocateFilename i t reg = (mkStem c (slugOf t), alInsert reg c i) := by
    rw [allocateFilename, allocGo_eq_find, hfind]
    simp [hcnone]
  have hcu : noUnderscore c := by rw [hcl]; exact noUnderscore_strTake hund l
  refine ⟨c, hcnone, halloc, ?_, hcu, ?_, ?_⟩
  · rw [hcl]; exact strTake_ne_empty hnz hl
  · rw [hcl]; exact strTake_isPref i l
  · rw [halloc]
    exact prefixOf_mkStem _ hcu

theorem RegPfxInv_insert {reg : Registry} {c i : String} (hreg : RegPfxInv reg)
    (hc : c ≠ "") (hu : noUnderscore c) (hp : strIsPref c i) :
    RegPfxInv (alInsert reg c i) := by
  intro p v h
  by_cases hpc : p = c
  · subst hpc
    rw [alFind_insert_self] at h
    cases h
    exact ⟨hc, hu, hp⟩
  · rw [alFind_insert_ne reg c p i hpc] at h
    exact hreg p v h

theorem alFind_insert_none {reg : Registry} {c : String} {i : String} {p : String}
    (h : alFind (alInsert reg c i) p = none) : alFind reg p = none ∧ p ≠ c := by
  by_cases hpc : p = c
  · subst hpc
    rw [alFind_insert_self] at h
    cases h
  · rw [alFind_insert_ne reg c p i hpc] at h
    exact ⟨h, hpc⟩

theorem freshFor_insert {reg : Registry} {c i j : String} (hf : freshFor reg j)
    (h1 : ¬ strIsPref j i) (h2 : ¬ strIsPref i j) :
    freshFor (alInsert reg c i) j := by
  intro p v h
  by_cases hpc : p = c
  · subst hpc
    rw [alFind_insert_self] at h
    cases h
    exact ⟨h1, h2⟩
  · rw [alFind_insert_ne reg c p i hpc] at h
    exact hf p v h

theorem FreshIds_head {reg : Registry} {r : RecordM} {todo : List RecordM}
    (h : FreshIds reg (r :: todo)) :
    freshFor reg r.id ∧ r.id ≠ "" ∧ noUnderscore r.id := h.1 r (.head _)

theorem FreshIds_step {reg : Registry} {r : RecordM} {todo : List RecordM} {c : String}
    (h : FreshIds reg (r :: todo)) :
    FreshIds (alInsert reg c r.id) todo := by
  obtain ⟨hall, hpw⟩ := h
  have hhead := (List.pairwise_cons.mp hpw).1
  refine ⟨?_, (List.pairwise_cons.mp hpw).2⟩
  intro q hq
  obtain ⟨hfq, hnq, huq⟩ := hall q (.tail _ hq)
  have hind := hhead q hq
  exact ⟨freshFor_insert hfq hind.2 hind.1, hnq, huq⟩

/-- Every run claims pairwise-distinct prefixes, all unclaimed beforehand. -/
theorem claimsList_fresh : ∀ (todo : List RecordM) (reg : Registry),
    RegPfxInv reg → FreshIds reg todo →
    (claimsList todo reg).Nodup ∧ ∀ c ∈ claimsList todo reg, alFind reg c = none := by
  intro todo
  induction todo with
  | nil =>
    intro reg _ _
    exact ⟨List.nodup_nil, by simp [claimsList]⟩
  | cons r rest ih =>
    intro reg hreg hfresh
    obtain ⟨hfr, hnz, hund⟩ := FreshIds_head hfresh
    obtain ⟨c, hcnone, halloc, hcne, hcu, hcp, hpfx⟩ :=
      alloc_fresh reg r.id r.title hreg hfr hnz hund
    have hreg2 : RegPfxInv (alInsert reg c r.id) := RegPfxInv_insert hreg hcne hcu hcp
    have hfresh2 : FreshIds (alInsert reg c r.id) rest := FreshIds_step hfresh
    have hrec := ih (alInsert reg c r.id) hreg2 hfresh2
    have hcl : claimsList (r :: rest) reg = c :: claimsList rest (alInsert reg c r.id) := by
      simp only [claimsList]
      rw [hpfx, halloc]
    rw [hcl]
    constructor
    · rw [List.nodup_cons]
      refine ⟨?_, hrec.1⟩
      intro hmem
      have hq := hrec.2 c hmem
      rw [alFind_insert_self] at hq
      cases hq
    · intro c2 hc2
      rcases List.mem_cons.mp hc2 with h | h
      · subst h; exact hcnone
      · exact (alFind_insert_none (hrec.2 c2 h)).1

theorem goodStems_cons_good {r : RecordM} {todo : List RecordM} {reg : Registry}
    {src : DbThreadM ⊕ SerializedThreadM} (h : recParse r = some src) :
    goodStems (r :: todo) reg =
      (r, (allocateFilename r.id r.title reg).1) ::
        goodStems todo (allocateFilename r.id r.title reg).2 := by
  simp [goodStems, h]

theorem goodStems_cons_bad {r : RecordM} {todo : List RecordM} {reg : Registry}
    (h : recParse r = none) :
    goodStems (r :: todo) reg = goodStems todo (allocateFilename r.id r.title reg).2 := by
  simp [goodStems, h]

theorem goodStems_pfx_sublist : ∀ (todo : List RecordM) (reg : Registry),
    ((goodStems todo reg).map (fun rs => prefixOf rs.2)).Sublist (claimsList todo reg) := by
  intro todo
  induction todo with
  | nil => intro reg; simp [goodStems, claimsList]
  | cons r rest ih =>
    intro reg
    have hcl : claimsList (r :: rest) reg =
        prefixOf (allocateFilename r.id r.title reg).1 ::
          claimsList rest (allocateFilename r.id r.title reg).2 := by
      simp only [claimsList]
    rw [hcl]
    cases hp : recParse r with
    | some src =>
      rw [goodStems_cons_good hp, List.map_cons]
      exact List.Sublist.cons₂ _ (ih _)
    | none =>
      rw [goodStems_cons_bad hp]
      exact List.Sublist.cons _ (ih _)

theorem goodStems_pfx_mem : ∀ (todo : List RecordM) (reg : Registry)
    (rs : RecordM × String), rs ∈ goodStems todo reg →
    prefixOf rs.2 ∈ claimsList todo reg :=
  fun todo reg _rs h =>
    (goodStems_pfx_sublist todo reg).subset (List.mem_map_of_mem _ h)

theorem goodStems_wf : ∀ (todo : List RecordM) (reg : Registry),
    RegPfxInv reg → FreshIds reg todo →
    ∀ rs ∈ goodStems todo reg, (recParse rs.1).isSome ∧ prefixOf rs.2 ≠ "" := by
  intro todo
  induction todo with
  | nil => intro reg _ _ rs h; simp [goodStems] at h
  | cons r rest ih =>
    intro reg hreg hfresh rs h
    obtain ⟨hfr, hnz, hund⟩ := FreshIds_head hfresh
    obtain ⟨c, hcnone, halloc, hcne, hcu, hcp, hpfx⟩ :=
      alloc_fresh reg r.id r.title hreg hfr hnz hund
    have hreg2 : RegPfxInv (allocateFilename r.id r.title reg).2 := by
      rw [halloc]
      exact RegPfxInv_insert hreg hcne hcu hcp
    have hfresh2 : FreshIds (allocateFilename r.id r.title reg).2 rest := by
      rw [halloc]
      exact FreshIds_step hfresh
    cases hp : recParse r with
    | some src =>
      rw [goodStems_cons_good hp] at h
      rcases List.mem_cons.mp h with h | h
      · subst h
        exact ⟨by simp [hp], by rw [hpfx]; exact hcne⟩
      · exact ih _ hreg2 hfresh2 rs h
    | none =>
      rw [goodStems_cons_bad hp] at h
      exact ih _ hreg2 hfresh2 rs h

/-! ## Lemmas: decode coherence and step characterizations -/

theorem deserializeDbThread_ts {j : Json} {t : DbThreadM}
    (h : deserializeDbThread j = some t) : extractJsonTimestamp j = some t.updatedAt := by
  match j with
  | .null | .bool _ | .num _ | .str _ | .arr _ => simp [deserializeDbThread] at h
  | .obj o =>
    simp only [deserializeDbThread] at h
    split at h
    · rename_i t0 ts ms heq1 heq2 heq3
      cases h
      simp [extractJsonTimestamp, heq2]
    · cases h

theorem deserializeSerializedThread_ts {j : Json} {t : SerializedThreadM}
    (h : deserializeSerializedThread j = some t) : extractJsonTimestamp j = some t.updatedAt := by
  match j with
  | .null | .bool _ | .num _ | .str _ | .arr _ => simp [deserializeSerializedThread] at h
  | .obj o =>
    simp only [deserializeSerializedThread] at h
    split at h
    · rename_i v0 s0 ts ms heq1 heq2 heq3 heq4
      cases h
      simp [extractJsonTimestamp, heq3]
    · cases h

theorem renderOfMain_fm (r : RecordM) (stem : String) (tags : Option (List String))
    (src : DbThreadM ⊕ SerializedThreadM) :
    (renderOfMain r stem tags src).frontmatter = some ⟨none, tsOfSrc src, false⟩ := by
  cases src <;> rfl

theorem renderOfMain_pre (r : RecordM) (stem : String) (tags : Option (List String))
    (src : DbThreadM ⊕ SerializedThreadM) :
    (renderOfMain r stem tags src).fmPre = "title: " ++ srcTitle src := by
  cases src <;> rfl

theorem recParse_good {r : RecordM} {src : DbThreadM ⊕ SerializedThreadM}
    (h : recParse r = some src) :
    ∃ jb, decompressData r.data = .ok jb ∧ jbExtractTs jb = some (tsOfSrc src) := by
  cases hd : decompressData r.data with
  | error e => simp [recParse, hd] at h
  | ok jb =>
    refine ⟨jb, rfl, ?_⟩
    simp only [recParse, hd] at h
    cases hdb : jbDeserializeDb jb with
    | some t =>
      rw [hdb] at h
      cases h
      cases jb with
      | malformed => simp [jbDeserializeDb] at hdb
      | wellFormed j =>
        simp only [jbDeserializeDb] at hdb
        simp only [jbExtractTs, tsOfSrc]
        exact deserializeDbThread_ts hdb
    | none =>
      rw [hdb] at h
      cases hser : jbDeserializeSer jb with
      | some t =>
        rw [hser] at h
        simp at h
        subst h
        cases jb with
        | malformed => simp [jbDeserializeSer] at hser
        | wellFormed j =>
          simp only [jbDeserializeSer] at hser
          simp only [jbExtractTs, tsOfSrc]
          exact deserializeSerializedThread_ts hser
      | none =>
        rw [hser] at h
        simp at h



theorem processThread_skip_hit (r : RecordM) (tags : Option (List String)) (reg : Registry)
    (idx : FileIndex) (fs : Fs) (ex : String) {fileTs dbTs : Int} {jb : JsonBytes}
    (hex : alFind idx (prefixOf (allocateFilename r.id r.title reg).1) = some ex)
    (hread : readFileUpdatedAt fs ex = some fileTs)
    (hdec : decompressData r.data = .ok jb)
    (hts : jbExtractTs jb = some dbTs)
    (hle : dbTs ≤ fileTs) :
    processThread r false tags reg idx fs =
      (.ok .skipped, (allocateFilename r.id r.title reg).2, idx, fs) := by
  simp only [processThread, hex, hread, hdec, hts, if_pos hle]

theorem processThread_probe_miss (r : RecordM) (tags : Option (List String)) (reg : Registry)
    (idx : FileIndex) (fs : Fs) (ex : String)
    (hex : alFind idx (prefixOf (allocateFilename r.id r.title reg).1) = some ex)
    (hread : readFileUpdatedAt fs ex = none) :
    processThread r false tags reg idx fs =
      processRest r tags (allocateFilename r.id r.title reg).2 idx fs
        (allocateFilename r.id r.title reg).1
        (prefixOf (allocateFilename r.id r.title reg).1) (some ex) := by
  simp only [processThread, hex, hread]

theorem runExport_eq (records : List RecordM) (force : Bool) (tags : Option (List String))
    (fs : Fs) :
    runExport records force tags fs =
      runLoop force tags records records.length ⟨0, 0, 0, 0⟩ [] (buildFileIndex fs) fs := rfl

theorem readFileUpdatedAt_over_budget (fs : Fs) (path : String) (c : FileContent)
    (fm : FileFrontmatter) (pre : String) (ts : Int)
    (hfind : alFind fs path = some c) (hfm : c.frontmatter = some fm)
    (hpre : c.fmPre = pre) (hts : fm.updatedAt = ts)
    (hover : ¬ (lineBytes pre + lineBytes (uaLine ts) ≤ 2048)) :
    readFileUpdatedAt fs path = none := by
  subst hpre
  subst hts
  simp only [readFileUpdatedAt, hfind, hfm, if_neg hover]

theorem processThread_fresh (r : RecordM) (tags : Option (List String)) (reg : Registry)
    (idx : FileIndex) (fs : Fs)
    (hex : alFind idx (prefixOf (allocateFilename r.id r.title reg).1) = none)
    (hfs : alFind fs (allocateFilename r.id r.title reg).1 = none) :
    processThread r false tags reg idx fs =
      match recParse r with
      | some src =>
        (.ok .created, (allocateFilename r.id r.title reg).2,
          alInsert idx (prefixOf (allocateFilename r.id r.title reg).1)
            (allocateFilename r.id r.title reg).1,
          alInsert fs (allocateFilename r.id r.title reg).1
            (renderOfMain r (allocateFilename r.id r.title reg).1 tags src))
      | none =>
        match decompressData r.data with
        | .error e => (.error e, (allocateFilename r.id r.title reg).2, idx, fs)
        | .ok _ =>
          (.error .decodeFailed, (allocateFilename r.id r.title reg).2,
            alInsert idx (prefixOf (allocateFilename r.id r.title reg).1)
              (allocateFilename r.id r.title reg).1, fs) := by
  simp only [processThread, hex]
  cases hd : decompressData r.data with
  | error e =>
    have hrp : recParse r = none := by simp [recParse, hd]
    simp only [processRest, hd, hrp]
  | ok jb =>
    simp only [processRest, hd, processWrite]
    cases hdb : jbDeserializeDb jb with
    | some t =>
      have hrp : recParse r = some (.inl t) := by simp [recParse, hd, hdb]
      simp only [hdb, hrp, renderOfMain]
    | none =>
      cases hser : jbDeserializeSer jb with
      | some t =>
        have hrp : recParse r = some (.inr t) := by simp [recParse, hd, hdb, hser]
        simp only [hdb, hser, hrp, renderOfMain]
      | none =>
        have hrp : recParse r = none := by simp [recParse, hd, hdb, hser]
        simp only [hdb, hser, hrp, alErase_of_find_none fs _ hfs]

theorem alFind_insert_isSome {α : Type} (l : List (String × α)) (k p : String) (v : α)
    (h : (alFind l p).isSome) : (alFind (alInsert l k v) p).isSome := by
  by_cases hpk : p = k
  · subst hpk
    rw [alFind_insert_self]
    rfl
  · rw [alFind_insert_ne l k p v hpk]
    exact h

/-- First run, characterized: starting from any state whose claims cover the
index and the files, the loop appends exactly the renders of the records that
decode (each at its freshly claimed stem) and touches nothing else. -/
theorem run1_fs (tags : Option (List String)) :
    ∀ (todo : List RecordM) (total : Nat) (cnt : Counts) (reg : Registry)
      (idx : FileIndex) (fs : Fs),
      RegPfxInv reg → IdxRegInv reg idx → FsRegInv reg fs → FreshIds reg todo →
      (runLoop false tags todo total cnt reg idx fs).2 =
        fs ++ fsOfGoods tags (goodStems todo reg) := by
  intro todo
  induction todo with
  | nil =>
    intro total cnt reg idx fs _ _ _ _
    have h0 : fsOfGoods tags (goodStems ([] : List RecordM) reg) = [] := rfl
    rw [h0, List.append_nil]
    rfl
  | cons r rest ih =>
    intro total cnt reg idx fs hreg hidx hfs hfresh
    obtain ⟨hfr, hnz, hund⟩ := FreshIds_head hfresh
    obtain ⟨c, hcnone, halloc, hcne, hcu, hcp, hpfx⟩ :=
      alloc_fresh reg r.id r.title hreg hfr hnz hund
    have hexn : alFind idx (prefixOf (allocateFilename r.id r.title reg).1) = none := by
      rw [hpfx]
      cases hi : alFind idx c with
      | none => rfl
      | some s => exact absurd (hidx c (by simp [hi])) (by simp [hcnone])
    have hfsn : alFind fs (allocateFilename r.id r.title reg).1 = none := by
      cases hi : alFind fs (allocateFilename r.id r.title reg).1 with
      | none => rfl
      | some s =>
        have := hfs (allocateFilename r.id r.title reg).1 (by rw [hi]; rfl)
        rw [hpfx, hcnone] at this
        cases this
    have hchar := processThread_fresh r tags reg idx fs hexn hfsn
    have hreg2 : RegPfxInv (allocateFilename r.id r.title reg).2 := by
      rw [halloc]
      exact RegPfxInv_insert hreg hcne hcu hcp
    have hfresh2 : FreshIds (allocateFilename r.id r.title reg).2 rest := by
      rw [halloc]
      exact FreshIds_step hfresh
    have hidx2base : IdxRegInv (allocateFilename r.id r.title reg).2 idx := by
      intro p hp
      rw [halloc]
      exact alFind_insert_isSome reg c p r.id (hidx p hp)
    have hfs2base : FsRegInv (allocateFilename r.id r.title reg).2 fs := by
      intro s hp
      rw [halloc]
      exact alFind_insert_isSome reg c (prefixOf s) r.id (hfs s hp)
    cases hp : recParse r with
    | some src =>
      rw [hp] at hchar
      rw [runLoop_cons_created false tags r rest total cnt reg idx fs hchar]
      have hidx2 : IdxRegInv (allocateFilename r.id r.title reg).2
          (alInsert idx (prefixOf (allocateFilename r.id r.title reg).1)
            (allocateFilename r.id r.title reg).1) := by
        intro p hp2
        by_cases hpc : p = prefixOf (allocateFilename r.id r.title reg).1
        · subst hpc
          rw [hpfx, halloc]
          rw [alFind_insert_self]
          rfl
        · rw [alFind_insert_ne _ _ _ _ hpc] at hp2
          exact hidx2base p hp2
      have hfs2 : FsRegInv (allocateFilename r.id r.title reg).2
          (alInsert fs (allocateFilename r.id r.title reg).1
            (renderOfMain r (allocateFilename r.id r.title reg).1 tags src)) := by
        intro s hp2
        by_cases hsc : s = (allocateFilename r.id r.title reg).1
        · subst hsc
          rw [hpfx, halloc, alFind_insert_self]
          rfl
        · rw [alFind_insert_ne _ _ _ _ hsc] at hp2
          exact hfs2base s hp2
      rw [ih total ⟨cnt.created + 1, cnt.updated, cnt.skipped, cnt.errors⟩ _ _ _
        hreg2 hidx2 hfs2 hfresh2]
      rw [goodStems_cons_good hp]
      rw [alInsert_of_find_none fs _ _ hfsn]
      simp only [fsOfGoods, List.map_cons, renderOfGood, hp]
      rw [List.append_assoc]
      rfl
    | none =>
      rw [hp] at hchar
      cases hd : decompressData r.data with
      | error e =>
        rw [hd] at hchar
        rw [runLoop_cons_error false tags r rest total cnt reg idx fs hchar]
        rw [ih total ⟨cnt.created, cnt.updated, cnt.skipped, cnt.errors + 1⟩ _ _ _
          hreg2 hidx2base hfs2base hfresh2]
        rw [goodStems_cons_bad hp]
      | ok jb =>
        rw [hd] at hchar
        rw [runLoop_cons_error false tags r rest total cnt reg idx fs hchar]
        have hidx2 : IdxRegInv (allocateFilename r.id r.title reg).2
            (alInsert idx (prefixOf (allocateFilename r.id r.title reg).1)
              (allocateFilename r.id r.title reg).1) := by
          intro p hp2
          by_cases hpc : p = prefixOf (allocateFilename r.id r.title reg).1
          · subst hpc
            rw [hpfx, halloc]
            rw [alFind_insert_self]
            rfl
          · rw [alFind_insert_ne _ _ _ _ hpc] at hp2
            exact hidx2base p hp2
        rw [ih total ⟨cnt.created, cnt.updated, cnt.skipped, cnt.errors + 1⟩ _ _ _
          hreg2 hidx2 hfs2base hfresh2]
        rw [goodStems_cons_bad hp]

theorem buildFileIndex_eq_foldl (fs : Fs) : buildFileIndex fs = List.foldl bfiStep [] fs :=
  rfl

theorem bfiStep_foldl_none (p : String) :
    ∀ (fs : Fs) (acc : FileIndex), (∀ e ∈ fs, prefixOf e.1 ≠ p) →
      alFind (List.foldl bfiStep acc fs) p = alFind acc p := by
  intro fs
  induction fs with
  | nil => intro acc _; rfl
  | cons e rest ih =>
    intro acc h
    rw [List.foldl_cons, ih (bfiStep acc e) (fun x hx => h x (List.mem_cons_of_mem _ hx))]
    simp only [bfiStep]
    by_cases hpe : prefixOf e.1 = ""
    · rw [if_pos hpe]
    · rw [if_neg hpe]
      exact alFind_insert_ne acc (prefixOf e.1) p e.1 (fun hq => h e (List.mem_cons_self _ _) hq.symm)

theorem bfiStep_foldl_mem (p s : String) (hp : p ≠ "") :
    ∀ (fs : Fs) (acc : FileIndex),
      (∀ e ∈ fs, prefixOf e.1 = p → e.1 = s) →
      ((∃ c, (s, c) ∈ fs ∧ prefixOf s = p) ∨ alFind acc p = some s) →
      alFind (List.foldl bfiStep acc fs) p = some s := by
  intro fs
  induction fs with
  | nil =>
    intro acc _ hex
    rcases hex with ⟨c, hc, _⟩ | h
    · exact absurd hc (List.not_mem_nil _)
    · exact h
  | cons e rest ih =>
    intro acc hall hex
    rw [List.foldl_cons]
    apply ih (bfiStep acc e) (fun x hx hpx => hall x (List.mem_cons_of_mem _ hx) hpx)
    by_cases hpe : prefixOf e.1 = p
    · right
      have hes : e.1 = s := hall e (List.mem_cons_self _ _) hpe
      have hps : prefixOf s = p := hes ▸ hpe
      simp only [bfiStep, hes, hps]
      rw [if_neg hp]
      exact alFind_insert_self acc p s
    · rcases hex with ⟨c, hc, hps⟩ | hacc
      · rcases List.mem_cons.mp hc with hh | hh
        · exfalso
          exact hpe (by rw [← hh]; exact hps)
        · left; exact ⟨c, hh, hps⟩
      · right
        simp only [bfiStep]
        by_cases hpe0 : prefixOf e.1 = ""
        · rw [if_pos hpe0]; exact hacc
        · rw [if_neg hpe0, alFind_insert_ne acc (prefixOf e.1) p e.1 (fun hq => hpe hq.symm)]
          exact hacc

theorem buildFileIndex_find_none (fs : Fs) (p : String) (h : ∀ e ∈ fs, prefixOf e.1 ≠ p) :
    alFind (buildFileIndex fs) p = none := by
  rw [buildFileIndex_eq_foldl, bfiStep_foldl_none p fs [] h]
  rfl

theorem buildFileIndex_find_mem (fs : Fs) (s : String) (c : FileContent)
    (hp : prefixOf s ≠ "") (hmem : (s, c) ∈ fs)
    (huniq : ∀ e ∈ fs, prefixOf e.1 = prefixOf s → e.1 = s) :
    alFind (buildFileIndex fs) (prefixOf s) = some s := by
  rw [buildFileIndex_eq_foldl]
  exact bfiStep_foldl_mem (prefixOf s) s hp fs [] huniq (Or.inl ⟨c, hmem, rfl⟩)

theorem fsOfGoods_find_self (tags : Option (List String)) :
    ∀ (goods : List (RecordM × String)),
      goods.Pairwise (fun a b => a.2 ≠ b.2) →
      ∀ rs ∈ goods, alFind (fsOfGoods tags goods) rs.2 = some (renderOfGood tags rs) := by
  intro goods
  induction goods with
  | nil => intro _ rs h; exact absurd h (List.not_mem_nil _)
  | cons g rest ih =>
    intro hdist rs h
    rcases List.mem_cons.mp h with h | h
    · subst h
      show alFind ((rs.2, renderOfGood tags rs) :: fsOfGoods tags rest) rs.2 = _
      rw [alFind_cons, if_pos rfl]
    · have hne : g.2 ≠ rs.2 := (List.pairwise_cons.mp hdist).1 rs h
      show alFind ((g.2, renderOfGood tags g) :: fsOfGoods tags rest) rs.2 = _
      rw [alFind_cons, if_neg hne]
      exact ih (List.pairwise_cons.mp hdist).2 rs h

theorem fsOfGoods_find_none (tags : Option (List String)) (goods : List (RecordM × String))
    (s : String) (h : ∀ rs ∈ goods, rs.2 ≠ s) :
    alFind (fsOfGoods tags goods) s = none := by
  rw [alFind_eq_none_iff]
  intro e he
  obtain ⟨rs, hrs, heq⟩ := List.mem_map.mp he
  rw [← heq]
  exact h rs hrs

/-- Along a prefix-isolated run the good stems have pairwise-distinct prefixes
(hence pairwise-distinct stems): their prefix list is a Nodup claims sublist. -/
theorem goodStems_pfx_nodup (todo : List RecordM) (reg : Registry)
    (hreg : RegPfxInv reg) (hfresh : FreshIds reg todo) :
    ((goodStems todo reg).map (fun rs => prefixOf rs.2)).Nodup :=
  List.Nodup.sublist (goodStems_pfx_sublist todo reg)
    (claimsList_fresh todo reg hreg hfresh).1

theorem goodStems_stems_pairwise (todo : List RecordM) (reg : Registry)
    (hreg : RegPfxInv reg) (hfresh : FreshIds reg todo) :
    (goodStems todo reg).Pairwise (fun a b => a.2 ≠ b.2) := by
  have hpfx : (goodStems todo reg).Pairwise (fun a b => prefixOf a.2 ≠ prefixOf b.2) :=
    List.pairwise_map.mp (goodStems_pfx_nodup todo reg hreg hfresh)
  exact hpfx.imp (fun h heq => h (by rw [heq]))

theorem goodStems_stems_inj (todo : List RecordM) (reg : Registry)
    (hreg : RegPfxInv reg) (hfresh : FreshIds reg todo) :
    ∀ a ∈ goodStems todo reg, ∀ b ∈ goodStems todo reg,
      prefixOf a.2 = prefixOf b.2 → a.2 = b.2 := by
  intro a ha b hb h
  rw [List.inj_on_of_nodup_map (goodStems_pfx_nodup todo reg hreg hfresh) ha hb h]

/-- A second run is positionally ready whenever fs1 carries exactly the good
stems' renders (and nothing else at unclaimed prefixes). -/
theorem runReady_of_facts (fs1 : Fs) (tags : Option (List String)) :
    ∀ (todo : List RecordM) (reg : Registry),
      RegPfxInv reg → FreshIds reg todo →
      (∀ rs ∈ goodStems todo reg,
        alFind fs1 rs.2 = some (renderOfGood tags rs) ∧
          alFind (buildFileIndex fs1) (prefixOf rs.2) = some rs.2) →
      (∀ c, alFind reg c = none →
        (∀ rs ∈ goodStems todo reg, prefixOf rs.2 ≠ c) →
        alFind (buildFileIndex fs1) c = none) →
      (∀ s, alFind reg (prefixOf s) = none →
        (∀ rs ∈ goodStems todo reg, rs.2 ≠ s) →
        alFind fs1 s = none) →
      RunReady fs1 tags todo reg := by
  intro todo
  induction todo with
  | nil => intro reg _ _ _ _ _; trivial
  | cons r rest ih =>
    intro reg hreg hfresh hH1 hH2 hH3
    obtain ⟨hfr, hnz, hund⟩ := FreshIds_head hfresh
    obtain ⟨c, hcnone, halloc, hcne, hcu, hcp, hpfx⟩ :=
      alloc_fresh reg r.id r.title hreg hfr hnz hund
    have ha2 : (allocateFilename r.id r.title reg).2 = alInsert reg c r.id := by rw [halloc]
    have hreg2 : RegPfxInv (allocateFilename r.id r.title reg).2 := by
      rw [ha2]; exact RegPfxInv_insert hreg hcne hcu hcp
    have hfresh2 : FreshIds (allocateFilename r.id r.title reg).2 rest := by
      rw [ha2]; exact FreshIds_step hfresh
    have hsub : ∀ rs ∈ goodStems rest (allocateFilename r.id r.title reg).2,
        rs ∈ goodStems (r :: rest) reg := by
      intro rs hrs
      cases hp : recParse r with
      | some src => rw [goodStems_cons_good hp]; exact List.mem_cons_of_mem _ hrs
      | none => rw [goodStems_cons_bad hp]; exact hrs
    have hfuture : ∀ rs ∈ goodStems rest (allocateFilename r.id r.title reg).2,
        prefixOf rs.2 ≠ c := by
      intro rs hrs heq
      have hmem := goodStems_pfx_mem rest _ rs hrs
      have hnone := (claimsList_fresh rest _ hreg2 hfresh2).2 _ hmem
      rw [heq, ha2, alFind_insert_self] at hnone
      cases hnone
    have hh1 : ∀ rs ∈ goodStems rest (allocateFilename r.id r.title reg).2,
        alFind fs1 rs.2 = some (renderOfGood tags rs) ∧
          alFind (buildFileIndex fs1) (prefixOf rs.2) = some rs.2 :=
      fun rs hrs => hH1 rs (hsub rs hrs)
    have hh2 : ∀ c2, alFind (allocateFilename r.id r.title reg).2 c2 = none →
        (∀ rs ∈ goodStems rest (allocateFilename r.id r.title reg).2, prefixOf rs.2 ≠ c2) →
        alFind (buildFileIndex fs1) c2 = none := by
      intro c2 hc2 hno
      rw [ha2] at hc2
      obtain ⟨hcreg, hc2c⟩ := alFind_insert_none hc2
      apply hH2 c2 hcreg
      intro rs hrs
      cases hp : recParse r with
      | some src =>
        rw [goodStems_cons_good hp] at hrs
        rcases List.mem_cons.mp hrs with hh | hh
        · subst hh
          show prefixOf (allocateFilename r.id r.title reg).1 ≠ c2
          rw [hpfx]
          exact fun hq => hc2c hq.symm
        · exact hno rs hh
      | none =>
        rw [goodStems_cons_bad hp] at hrs
        exact hno rs hrs
    have hh3 : ∀ s, alFind (allocateFilename r.id r.title reg).2 (prefixOf s) = none →
        (∀ rs ∈ goodStems rest (allocateFilename r.id r.title reg).2, rs.2 ≠ s) →
        alFind fs1 s = none := by
      intro s hs hno
      rw [ha2] at hs
      obtain ⟨hsreg, hsc⟩ := alFind_insert_none hs
      apply hH3 s hsreg
      intro rs hrs
      cases hp : recParse r with
      | some src =>
        rw [goodStems_cons_good hp] at hrs
        rcases List.mem_cons.mp hrs with hh | hh
        · subst hh
          intro heq
          exact hsc (by rw [← heq]; exact hpfx)
        · exact hno rs hh
      | none =>
        rw [goodStems_cons_bad hp] at hrs
        exact hno rs hrs
    refine ⟨?_, ih _ hreg2 hfresh2 hh1 hh2 hh3⟩
    cases hp : recParse r with
    | some src =>
      have hmem : (r, (allocateFilename r.id r.title reg).1) ∈ goodStems (r :: rest) reg := by
        rw [goodStems_cons_good hp]; exact List.mem_cons_self _ _
      obtain ⟨hfind, hbfi⟩ := hH1 _ hmem
      refine ⟨hbfi, ?_⟩
      have hgood : renderOfGood tags (r, (allocateFilename r.id r.title reg).1) =
          renderOfMain r (allocateFilename r.id r.title reg).1 tags src := by
        simp [renderOfGood, hp]
      rw [← hgood]
      exact hfind
    | none =>
      constructor
      · rw [hpfx]
        apply hH2 c hcnone
        intro rs hrs
        rw [goodStems_cons_bad hp] at hrs
        exact hfuture rs hrs
      · apply hH3 _ (by rw [hpfx]; exact hcnone)
        intro rs hrs heq
        rw [goodStems_cons_bad hp] at hrs
        exact hfuture rs hrs (by rw [heq]; exact hpfx)

/-- Second run, characterized: against a ready fs1 (an index that agrees
with the rebuilt one on every unclaimed prefix, and every decodable record's
header within the probe budget) the loop leaves the files untouched and
creates and updates nothing. -/
theorem run2_loop (fs1 : Fs) (tags : Option (List String)) :
    ∀ (todo : List RecordM) (total : Nat) (cnt : Counts) (reg : Registry) (idx : FileIndex),
      RegPfxInv reg → FreshIds reg todo →
      (∀ p, alFind reg p = none → alFind idx p = alFind (buildFileIndex fs1) p) →
      (∀ q ∈ todo, (recParse q).all fmProbeOk = true) →
      RunReady fs1 tags todo reg →
      (runLoop false tags todo total cnt reg idx fs1).2 = fs1 ∧
        (runLoop false tags todo total cnt reg idx fs1).1.created = cnt.created ∧
        (runLoop false tags todo total cnt reg idx fs1).1.updated = cnt.updated := by
  intro todo
  induction todo with
  | nil => intro total cnt reg idx _ _ _ _ _; exact ⟨rfl, rfl, rfl⟩
  | cons r rest ih =>
    intro total cnt reg idx hreg hfresh hidx hbud hready
    have hhead := hready.1
    have htail := hready.2
    obtain ⟨hfr, hnz, hund⟩ := FreshIds_head hfresh
    obtain ⟨c, hcnone, halloc, hcne, hcu, hcp, hpfx⟩ :=
      alloc_fresh reg r.id r.title hreg hfr hnz hund
    have ha2 : (allocateFilename r.id r.title reg).2 = alInsert reg c r.id := by rw [halloc]
    have hreg2 : RegPfxInv (allocateFilename r.id r.title reg).2 := by
      rw [ha2]; exact RegPfxInv_insert hreg hcne hcu hcp
    have hfresh2 : FreshIds (allocateFilename r.id r.title reg).2 rest := by
      rw [ha2]; exact FreshIds_step hfresh
    cases hp : recParse r with
    | none =>
      rw [hp] at hhead
      have hbfin : alFind (buildFileIndex fs1)
          (prefixOf (allocateFilename r.id r.title reg).1) = none := hhead.1
      have hfsn1 : alFind fs1 (allocateFilename r.id r.title reg).1 = none := hhead.2
      have hexn : alFind idx (prefixOf (allocateFilename r.id r.title reg).1) = none := by
        rw [hidx (prefixOf (allocateFilename r.id r.title reg).1) (by rw [hpfx]; exact hcnone)]
        exact hbfin
      have hchar := processThread_fresh r tags reg idx fs1 hexn hfsn1
      rw [hp] at hchar
      cases hd : decompressData r.data with
      | error e =>
        rw [hd] at hchar
        rw [runLoop_cons_error false tags r rest total cnt reg idx fs1 hchar]
        have hidx2 : ∀ p, alFind (allocateFilename r.id r.title reg).2 p = none →
            alFind idx p = alFind (buildFileIndex fs1) p := by
          intro p hpn
          rw [ha2] at hpn
          exact hidx p (alFind_insert_none hpn).1
        exact ih total ⟨cnt.created, cnt.updated, cnt.skipped, cnt.errors + 1⟩ _ idx
          hreg2 hfresh2 hidx2 (fun q hq => hbud q (List.mem_cons_of_mem _ hq)) htail
      | ok jb =>
        rw [hd] at hchar
        rw [runLoop_cons_error false tags r rest total cnt reg idx fs1 hchar]
        have hidx2 : ∀ p, alFind (allocateFilename r.id r.title reg).2 p = none →
            alFind (alInsert idx (prefixOf (allocateFilename r.id r.title reg).1)
              (allocateFilename r.id r.title reg).1) p = alFind (buildFileIndex fs1) p := by
          intro p hpn
          rw [ha2] at hpn
          obtain ⟨hregp, hpc⟩ := alFind_insert_none hpn
          rw [alFind_insert_ne idx (prefixOf (allocateFilename r.id r.title reg).1) p
            (allocateFilename r.id r.title reg).1 (by rw [hpfx]; exact hpc)]
          exact hidx p hregp
        exact ih total ⟨cnt.created, cnt.updated, cnt.skipped, cnt.errors + 1⟩ _ _
          hreg2 hfresh2 hidx2 (fun q hq => hbud q (List.mem_cons_of_mem _ hq)) htail
    | some src =>
      rw [hp] at hhead
      have hbfi : alFind (buildFileIndex fs1)
          (prefixOf (allocateFilename r.id r.title reg).1) =
          some (allocateFilename r.id r.title reg).1 := hhead.1
      have hfs1s : alFind fs1 (allocateFilename r.id r.title reg).1 =
          some (renderOfMain r (allocateFilename r.id r.title reg).1 tags src) := hhead.2
      have hex : alFind idx (prefixOf (allocateFilename r.id r.title reg).1) =
          some (allocateFilename r.id r.title reg).1 := by
        rw [hidx (prefixOf (allocateFilename r.id r.title reg).1) (by rw [hpfx]; exact hcnone)]
        exact hbfi
      have hok : lineBytes ("title: " ++ srcTitle src) + lineBytes (uaLine (tsOfSrc src)) ≤ 2048 := by
        have h := hbud r (List.mem_cons_self _ _)
        rw [hp] at h
        exact of_decide_eq_true h
      have hread : readFileUpdatedAt fs1 (allocateFilename r.id r.title reg).1 =
          some (tsOfSrc src) := by
        simp only [readFileUpdatedAt]
        rw [hfs1s]
        simp only [renderOfMain_fm, renderOfMain_pre]
        rw [if_pos hok]
      obtain ⟨jb, hdec, hts⟩ := recParse_good hp
      have hskip := processThread_skip_hit r tags reg idx fs1
        (allocateFilename r.id r.title reg).1 hex hread hdec hts (le_refl (tsOfSrc src))
      rw [runLoop_cons_skipped false tags r rest total cnt reg idx fs1 hskip]
      exact ⟨rfl, rfl, rfl⟩

/-- C2, amended: with force off and a fresh (empty) target directory,
exporting twice over the same records — ids well-formed (non-empty,
underscore-free) and pairwise prefix-free, as UUIDs are — leaves the second
run a no-op provided every decodable record's written header keeps
updated_at inside read_file_updated_at's 2048-byte budget (the title line is
written first): the second run creates no file, updates no file, and the
directory contents are identical after it.  Without the budget hypothesis
the statement fails: an over-budget title makes the second-run probe miss
updated_at and the record is re-processed as Updated. -/
theorem idempotence_c2 (records : List RecordM) (tags : Option (List String))
    (hwf : ∀ r ∈ records, r.id ≠ "" ∧ noUnderscore r.id)
    (hindep : records.Pairwise idsIndep)
    (hbudget : ∀ r ∈ records, (recParse r).all fmProbeOk = true) :
    (runExport records false tags (runExport records false tags []).2).2 =
      (runExport records false tags []).2 ∧
    (runExport records false tags (runExport records false tags []).2).1.created = 0 ∧
    (runExport records false tags (runExport records false tags []).2).1.updated = 0 := by
  have hreg0 : RegPfxInv ([] : Registry) := by
    intro p v h
    simp [alFind] at h
  have hfresh0 : FreshIds ([] : Registry) records := by
    refine ⟨?_, hindep⟩
    intro r hr
    refine ⟨?_, (hwf r hr).1, (hwf r hr).2⟩
    intro p v h
    simp [alFind] at h
  have hidx0 : IdxRegInv ([] : Registry) (buildFileIndex []) := by
    intro p hp
    simp [buildFileIndex, alFind] at hp
  have hfs0 : FsRegInv ([] : Registry) ([] : Fs) := by
    intro s hs
    simp [alFind] at hs
  have hfs1 : (runExport records false tags []).2 = fsOfGoods tags (goodStems records []) := by
    have h := run1_fs tags records records.length ⟨0, 0, 0, 0⟩ [] (buildFileIndex []) []
      hreg0 hidx0 hfs0 hfresh0
    show (runLoop false tags records records.length ⟨0, 0, 0, 0⟩ [] (buildFileIndex []) []).2 = _
    rw [h]
    rfl
  have hstems : (goodStems records []).Pairwise (fun a b => a.2 ≠ b.2) :=
    goodStems_stems_pairwise records [] hreg0 hfresh0
  have hwfg := goodStems_wf records [] hreg0 hfresh0
  have hH1 : ∀ rs ∈ goodStems records [],
      alFind (fsOfGoods tags (goodStems records [])) rs.2 = some (renderOfGood tags rs) ∧
        alFind (buildFileIndex (fsOfGoods tags (goodStems records []))) (prefixOf rs.2) =
          some rs.2 := by
    intro rs hrs
    refine ⟨fsOfGoods_find_self tags (goodStems records []) hstems rs hrs, ?_⟩
    apply buildFileIndex_find_mem _ rs.2 (renderOfGood tags rs) ((hwfg rs hrs).2)
    · exact List.mem_map_of_mem _ hrs
    · intro e he hpe
      obtain ⟨rs2, hrs2, heq⟩ := List.mem_map.mp he
      rw [← heq] at hpe ⊢
      exact goodStems_stems_inj records [] hreg0 hfresh0 rs2 hrs2 rs hrs hpe
  have hH2 : ∀ c, alFind ([] : Registry) c = none →
      (∀ rs ∈ goodStems records [], prefixOf rs.2 ≠ c) →
      alFind (buildFileIndex (fsOfGoods tags (goodStems records []))) c = none := by
    intro c _ hno
    apply buildFileIndex_find_none
    intro e he
    obtain ⟨rs2, hrs2, heq⟩ := List.mem_map.mp he
    rw [← heq]
    exact hno rs2 hrs2
  have hH3 : ∀ s, alFind ([] : Registry) (prefixOf s) = none →
      (∀ rs ∈ goodStems records [], rs.2 ≠ s) →
      alFind (fsOfGoods tags (goodStems records [])) s = none := by
    intro s _ hno
    exact fsOfGoods_find_none tags (goodStems records []) s hno
  have hready := runReady_of_facts (fsOfGoods tags (goodStems records [])) tags records []
    hreg0 hfresh0 hH1 hH2 hH3
  have hidx1 : ∀ p, alFind ([] : Registry) p = none →
      alFind (buildFileIndex (fsOfGoods tags (goodStems records []))) p =
        alFind (buildFileIndex (fsOfGoods tags (goodStems records []))) p :=
    fun _ _ => rfl
  have hrun2 := run2_loop (fsOfGoods tags (goodStems records [])) tags records
    records.length ⟨0, 0, 0, 0⟩ []
    (buildFileIndex (fsOfGoods tags (goodStems records []))) hreg0 hfresh0 hidx1 hbudget hready
  rw [hfs1]
  exact ⟨hrun2.1, hrun2.2.1, hrun2.2.2⟩

/-- C2 counterexample (the claim as originally stated, without the budget
caveat): a single well-formed record whose payload title is 2048 characters
pushes the written updated_at line past read_file_updated_at's byte budget;
the second run's probe returns none, the skip check is bypassed, and the
record is re-processed as Updated — so the second run performs one update
instead of zero. -/
theorem idempotence_c2_counterexample :
    (∀ r ∈ [c2LongRecord], r.id ≠ "" ∧ noUnderscore r.id) ∧
    [c2LongRecord].Pairwise idsIndep ∧
    (runExport [c2LongRecord] false none
        (runExport [c2LongRecord] false none []).2).1.updated = 1 := by
  refine ⟨by decide, by decide, ?_⟩
  have hA : (runExport [c2LongRecord] false none []).2 =
      [("aaaa0001", renderDbFileMain "aaaa0001-1111" "aaaa0001" ⟨c2LongTitle, 5, []⟩ none)] := rfl
  have hlen : c2LongTitle.toList.length = 2048 := by
    show (String.mk (List.replicate 2048 'a')).toList.length = 2048
    rw [toList_mk, List.length_replicate]
  have hpre : lineBytes ("title: " ++ c2LongTitle) = 2056 := by
    show ("title: " ++ c2LongTitle).toList.length + 1 = 2056
    rw [toList_append, List.length_append, hlen]
    decide
  have hbudFail : ¬ (lineBytes ("title: " ++ c2LongTitle) + lineBytes (uaLine 5) ≤ 2048) := by
    rw [hpre]
    decide
  have hprobeN : readFileUpdatedAt
      [("aaaa0001", renderDbFileMain "aaaa0001-1111" "aaaa0001" ⟨c2LongTitle, 5, []⟩ none)]
      "aaaa0001" = none := by
    apply readFileUpdatedAt_over_budget
      [("aaaa0001", renderDbFileMain "aaaa0001-1111" "aaaa0001" ⟨c2LongTitle, 5, []⟩ none)]
      "aaaa0001" (renderDbFileMain "aaaa0001-1111" "aaaa0001" ⟨c2LongTitle, 5, []⟩ none)
      ⟨none, 5, false⟩ ("title: " ++ c2LongTitle) 5
    · rfl
    · rfl
    · rfl
    · rfl
    · exact hbudFail
  have hFull : processThread c2LongRecord false none []
      (buildFileIndex
        [("aaaa0001", renderDbFileMain "aaaa0001-1111" "aaaa0001" ⟨c2LongTitle, 5, []⟩ none)])
      [("aaaa0001", renderDbFileMain "aaaa0001-1111" "aaaa0001" ⟨c2LongTitle, 5, []⟩ none)] =
      (.ok .updated, [("aaaa0001", "aaaa0001-1111")],
        alInsert (buildFileIndex
          [("aaaa0001", renderDbFileMain "aaaa0001-1111" "aaaa0001" ⟨c2LongTitle, 5, []⟩ none)])
          "aaaa0001" "aaaa0001",
        [("aaaa0001", renderDbFileMain "aaaa0001-1111" "aaaa0001" ⟨c2LongTitle, 5, []⟩ none)]) := by
    rw [processThread_probe_miss c2LongRecord none []
      (buildFileIndex
        [("aaaa0001", renderDbFileMain "aaaa0001-1111" "aaaa0001" ⟨c2LongTitle, 5, []⟩ none)])
      [("aaaa0001", renderDbFileMain "aaaa0001-1111" "aaaa0001" ⟨c2LongTitle, 5, []⟩ none)]
      "aaaa0001" rfl hprobeN]
    rfl
  simp only [hA]
  rw [runExport_eq, runLoop_cons_updated false none c2LongRecord [] [c2LongRecord].length
    ⟨0, 0, 0, 0⟩ []
    (buildFileIndex
      [("aaaa0001", renderDbFileMain "aaaa0001-1111" "aaaa0001" ⟨c2LongTitle, 5, []⟩ none)])
    [("aaaa0001", renderDbFileMain "aaaa0001-1111" "aaaa0001" ⟨c2LongTitle, 5, []⟩ none)] hFull]
  rfl

theorem idempotence_c2_witness :
    ((∀ r ∈ c2Records, r.id ≠ "" ∧ noUnderscore r.id) ∧ c2Records.Pairwise idsIndep ∧
      (∀ r ∈ c2Records, (recParse r).all fmProbeOk = true)) ∧
    ((runExport c2Records false none (runExport c2Records false none []).2).2 =
        (runExport c2Records false none []).2 ∧
      (runExport c2Records false none (runExport c2Records false none []).2).1.created = 0 ∧
      (runExport c2Records false none (runExport c2Records false none []).2).1.updated = 0) :=
  ⟨⟨by decide, by decide, by decide⟩,
    idempotence_c2 c2Records none (by decide) (by decide) (by decide)⟩

end ZedExport
